import Mathlib

/-!
Verification development for the `cb` clipboard-history manager.

The development shallowly embeds the core of the repository:
* the SQLite-backed clip store (`src/storage/sqlite.rs`, `src/storage/schema.rs`,
  `src/storage/models.rs`) as a pure state machine over an explicit `Store` value
  holding the rows of the `clips` and `tags` tables;
* the capture pipeline (`src/daemon.rs::poll_once`, `src/clipboard.rs`) as a pure
  transition function over the store plus the in-memory last-seen fingerprint;
* the content fingerprinter (`src/hash.rs`, delegating to the SHA-256 of the
  `sha2` crate) as an executable SHA-256 over byte lists.

SQL statements are embedded by their SQLite semantics: `GROUP_CONCAT` joins the
non-NULL values of a group with `","`, `LIKE` patterns treat `%`/`_` as
wildcards and compare ASCII case-insensitively (the query adds `COLLATE
NOCASE`), a `LIMIT` below zero means "no limit", a negative `OFFSET` means 0,
`AUTOINCREMENT` ids grow monotonically, and `ON DELETE CASCADE` removes the tag
rows of deleted clips.  Timestamps (`chrono::DateTime<Utc>` stored as sortable
RFC3339 text) are modelled as integers whose order agrees with the stored text
order.
-/

namespace Cb

/-! ### Character-list utilities

`splitCommaChars` models Rust's `str::split(',')` (used by `row_to_clip` in
`src/storage/sqlite.rs` to decode the `GROUP_CONCAT` tags column) and
`joinCommaChars` models the comma-joining done by SQLite's `GROUP_CONCAT`. -/

def splitCommaChars : List Char → List (List Char)
  | [] => [[]]
  | c :: cs =>
    if c = ',' then [] :: splitCommaChars cs
    else
      match splitCommaChars cs with
      | [] => [[c]]
      | p :: ps => (c :: p) :: ps

def joinCommaChars : List (List Char) → List Char
  | [] => []
  | [t] => t
  | t :: ts => t ++ ',' :: joinCommaChars ts

/-- Boolean pairwise check, used to state store well-formedness executably. -/
def pairwiseB (p : α → α → Bool) : List α → Bool
  | [] => true
  | a :: l => l.all (p a) && pairwiseB p l

/-! ### Data model (`src/storage/models.rs`) -/

inductive ContentType where
  | Text
  | Image
  | FileRef
  deriving DecidableEq, Repr

def ContentType.as_str : ContentType → String
  | .Text => "text"
  | .Image => "image"
  | .FileRef => "fileref"

def ContentType.parse (s : String) : Option ContentType :=
  if s = "text" then some .Text
  else if s = "image" then some .Image
  else if s = "fileref" then some .FileRef
  else none

structure Clip where
  id : Int
  content_type : ContentType
  text_content : Option String
  image_path : Option String
  image_width : Option Int
  image_height : Option Int
  hash : String
  size_bytes : Int
  pinned : Bool
  created_at : Int
  updated_at : Int
  tags : List String
  deriving DecidableEq, Repr

structure NewClip where
  content_type : ContentType
  text_content : Option String
  image_path : Option String
  image_width : Option Int
  image_height : Option Int
  hash : String
  size_bytes : Int
  deriving DecidableEq, Repr

structure StorageStats where
  total_clips : Int
  text_clips : Int
  image_clips : Int
  fileref_clips : Int
  total_size : Int
  oldest : Option Int
  newest : Option Int
  deriving DecidableEq, Repr

structure ClipFilter where
  content_type : Option ContentType := none
  pinned : Option Bool := none
  tag : Option String := none
  limit : Int := 0
  offset : Int := 0
  deriving DecidableEq, Repr

def ClipFilter.effective_limit (f : ClipFilter) : Int :=
  if f.limit ≤ 0 then 50 else f.limit

/-! ### Errors (`src/errors.rs`); the `rusqlite::Error` payload of `Storage`
is modelled as its message string. -/

inductive CbError where
  | Storage (msg : String)
  | Clipboard (msg : String)
  | Image (msg : String)
  | Daemon (msg : String)
  | NotFound (msg : String)
  | InvalidInput (msg : String)
  deriving DecidableEq, Repr

/-! ### Database state (`src/storage/schema.rs`)

A `ClipRow` is a row of the `clips` table exactly as stored (`content_type` as
TEXT, `pinned` as INTEGER); a `TagRow` is a row of the `tags` table.  Row lists
are kept in insertion order, which is the scan order SQLite uses for these
tables.  `next_clip_id`/`next_tag_id` model the AUTOINCREMENT sequences. -/

structure ClipRow where
  id : Int
  content_type : String
  text_content : Option String
  image_path : Option String
  image_width : Option Int
  image_height : Option Int
  hash : String
  size_bytes : Int
  pinned : Int
  created_at : Int
  updated_at : Int
  deriving DecidableEq, Repr

structure TagRow where
  id : Int
  clip_id : Int
  tag : String
  deriving DecidableEq, Repr

structure Store where
  clips : List ClipRow
  tags : List TagRow
  next_clip_id : Int
  next_tag_id : Int
  deriving DecidableEq, Repr

def emptyStore : Store := ⟨[], [], 1, 1⟩

/-! ### Row decoding (`row_to_clip` and `BASE_SELECT` in `src/storage/sqlite.rs`) -/

/-- SQLite `GROUP_CONCAT` over the tag values of one group: NULL for an empty
group, otherwise the values joined with `","`. -/
def groupConcatTags (ts : List String) : Option String :=
  match ts with
  | [] => none
  | _ => some (List.asString (joinCommaChars (ts.map String.toList)))

/-- The tags-column decoding done by `row_to_clip`: a missing or empty string
yields no tags, otherwise the string is split at every `','`.  (Rust's
`String::is_empty` checks the byte length; a string has zero bytes exactly
when it has no characters.) -/
def decodeTagsCol : Option String → List String
  | some s => if s.toList.isEmpty then [] else (splitCommaChars s.toList).map List.asString
  | none => []

def row_to_clip (r : ClipRow) (tagsCol : Option String) : Clip :=
  { id := r.id
    content_type := (ContentType.parse r.content_type).getD .Text
    text_content := r.text_content
    image_path := r.image_path
    image_width := r.image_width
    image_height := r.image_height
    hash := r.hash
    size_bytes := r.size_bytes
    pinned := r.pinned != 0
    created_at := r.created_at
    updated_at := r.updated_at
    tags := decodeTagsCol tagsCol }

/-- All tag values associated with clip `cid`, in `tags`-table order
(the rows joined by `BASE_SELECT`'s `LEFT JOIN tags`). -/
def clipTagStrings (s : Store) (cid : Int) : List String :=
  (s.tags.filter (fun r => r.clip_id == cid)).map TagRow.tag

/-- One output row of `BASE_SELECT ... GROUP BY clips.id` for clip row `c`. -/
def selectClip (s : Store) (c : ClipRow) : Clip :=
  row_to_clip c (groupConcatTags (clipTagStrings s c.id))

/-! ### `ORDER BY clips.id DESC`

Insertion sort by descending id.  Ordering is applied to the clip rows before
the per-row SELECT projection; the projection keeps each row's id, so this
agrees with ordering the projected rows. -/

def insertRowDesc (c : ClipRow) : List ClipRow → List ClipRow
  | [] => [c]
  | d :: ds => if d.id ≤ c.id then c :: d :: ds else d :: insertRowDesc c ds

def sortRowsDesc : List ClipRow → List ClipRow
  | [] => []
  | c :: cs => insertRowDesc c (sortRowsDesc cs)

/-! ### SQLite `LIKE ... COLLATE NOCASE`

`foldChar` is the ASCII case folding SQLite applies; `likeMatch pat t` decides
whether text `t` matches pattern `pat`, where `%` matches any sequence of
characters and `_` matches any single character. -/

def foldChar (c : Char) : Char :=
  if 65 ≤ c.toNat && c.toNat ≤ 90 then Char.ofNat (c.toNat + 32) else c

def likeMatch : List Char → List Char → Bool
  | [], t => t.isEmpty
  | c :: p, t =>
    if c = '%' then t.tails.any (fun suf => likeMatch p suf)
    else if c = '_' then
      match t with
      | [] => false
      | _ :: t2 => likeMatch p t2
    else
      match t with
      | [] => false
      | d :: t2 => foldChar c == foldChar d && likeMatch p t2

/-! ### Store operations (`impl ClipStorage for SqliteStorage` in
`src/storage/sqlite.rs`)

Mutating operations return the successor store next to their result, modelling
the database after the statement ran.  Failed statements leave the database
untouched, which the model reflects by returning the input store (or a store
provably equal to it). -/

/-- `insert`: the `INSERT INTO clips ...` statement followed by
`get_by_id(last_insert_rowid())`.  The `hash TEXT NOT NULL UNIQUE` column
constraint of `CREATE_CLIPS_TABLE` rejects a duplicate hash, surfacing as a
`Storage` error; a rejected insert does not advance the AUTOINCREMENT
sequence. -/
def insert (s : Store) (clip : NewClip) (now : Int) : Store × Except CbError Clip :=
  if s.clips.any (fun c => c.hash == clip.hash) then
    (s, .error (.Storage "UNIQUE constraint failed: clips.hash"))
  else
    let row : ClipRow :=
      { id := s.next_clip_id
        content_type := clip.content_type.as_str
        text_content := clip.text_content
        image_path := clip.image_path
        image_width := clip.image_width
        image_height := clip.image_height
        hash := clip.hash
        size_bytes := clip.size_bytes
        pinned := 0
        created_at := now
        updated_at := now }
    let s2 : Store := { s with clips := s.clips ++ [row], next_clip_id := s.next_clip_id + 1 }
    (s2, match s2.clips.find? (fun c => c.id == s.next_clip_id) with
         | some c => .ok (selectClip s2 c)
         | none => .error (.NotFound ("Clip with id " ++ toString s.next_clip_id ++ " not found")))

/-- `get_by_id`: `BASE_SELECT WHERE clips.id = ? GROUP BY clips.id` via
`query_row` (first matching row), with `QueryReturnedNoRows` mapped to
`NotFound`. -/
def get_by_id (s : Store) (id : Int) : Except CbError Clip :=
  match s.clips.find? (fun c => c.id == id) with
  | some c => .ok (selectClip s c)
  | none => .error (.NotFound ("Clip with id " ++ toString id ++ " not found"))

/-- The `?` placeholders of the `list` query, excluding the final
`LIMIT ? OFFSET ?` pair. -/
inductive ListPh where
  | PhTag
  | PhContentType
  | PhPinned
  deriving DecidableEq, BEq, Repr

/-- A value bound to a `?` placeholder: rusqlite's `ToSql` sends a Rust
`String` as an SQL TEXT value and an `i32` as an SQL INTEGER value. -/
inductive SqlVal where
  | IntV (i : Int)
  | TextV (t : String)
  deriving DecidableEq, Repr

/-- SQLite equality of a TEXT-affinity column value (`content_type`,
`tags.tag`) against a bound value: TEXT affinity is applied to the operand, so
an INTEGER operand is compared through its decimal text rendering. -/
def textColEq (col : String) (v : SqlVal) : Bool :=
  match v with
  | .TextV t => col == t
  | .IntV i => col == toString i

/-- Split a character list at the first `'.'`, for reading numeric text. -/
def splitDot : List Char → List Char × Option (List Char)
  | [] => ([], none)
  | c :: cs =>
    if c = '.' then ([], some cs)
    else
      let (a, b) := splitDot cs
      (c :: a, b)

/-- Integer reading of a text, for SQLite's NUMERIC affinity conversion: an
optionally signed digit string, allowing an all-zero fractional part
(`"7"`, `"-2"`, `"1.0"`).  Real-literal forms beyond that (nonzero fraction,
exponent or leading-dot notation) are not modelled — their conversion runs
through floating point, they never arise from this program's own writes, and
only the mis-bound pinned comparison below could ever see one. -/
def sqlTextToInt (t : String) : Option Int :=
  let (neg, body) :=
    match t.toList with
    | '-' :: cs => (true, cs)
    | '+' :: cs => (false, cs)
    | cs => (false, cs)
  let (ip, fp) := splitDot body
  let okFrac :=
    match fp with
    | none => true
    | some fs => !fs.isEmpty && fs.all (fun c => c == '0')
  if ip.isEmpty || !ip.all Char.isDigit || !okFrac then none
  else
    let n : Nat := ip.foldl (fun acc c => acc * 10 + (c.toNat - 48)) 0
    some (if neg then -(n : Int) else (n : Int))

/-- SQLite equality of the INTEGER-affinity `pinned` column against a bound
value: NUMERIC affinity is applied to a TEXT operand, so a numeric-looking
text is compared by value, while any other text never equals an integer
(INTEGER sorts strictly before TEXT in SQLite's cross-type ordering). -/
def intColEq (col : Int) (v : SqlVal) : Bool :=
  match v with
  | .IntV i => col == i
  | .TextV t =>
    match sqlTextToInt t with
    | some i => col == i
    | none => false

/-- The placeholders of the assembled SQL text in textual order: the tag
placeholder sits in the `INNER JOIN ... AND t1.tag = ?` clause of the FROM
part, ahead of the WHERE conditions, which appear in their push order
(content-type, then pinned). -/
def listPlaceholders (f : ClipFilter) : List ListPh :=
  (match f.tag with | some _ => [ListPh.PhTag] | none => []) ++
  (match f.content_type with | some _ => [ListPh.PhContentType] | none => []) ++
  (match f.pinned with | some _ => [ListPh.PhPinned] | none => [])

/-- The values pushed into `param_values`, in source order: content-type,
pinned, then tag (the limit and offset values follow and are kept
implicit). -/
def listParams (f : ClipFilter) : List SqlVal :=
  (match f.content_type with | some ct => [SqlVal.TextV ct.as_str] | none => []) ++
  (match f.pinned with
   | some b => [SqlVal.IntV (if b then 1 else 0)]
   | none => []) ++
  (match f.tag with | some t => [SqlVal.TextV t] | none => [])

/-- The value each placeholder receives: rusqlite binds purely positionally,
i-th value to i-th `?`.  Each supplied filter contributes exactly one
placeholder and one value, so the two lists always have equal length (and the
trailing limit/offset pair always lines up); but the tag value is pushed
last while its placeholder comes first, so a tag filter combined with a
content-type or pinned filter receives the wrong values. -/
def boundVal (f : ClipFilter) (ph : ListPh) : Option SqlVal :=
  List.lookup ph ((listPlaceholders f).zip (listParams f))

/-- The WHERE conditions of `list`, each comparing its column against the
value positionally bound to its placeholder. -/
def whereOkB (f : ClipFilter) (c : ClipRow) : Bool :=
  (match f.content_type, boundVal f ListPh.PhContentType with
   | some _, some v => textColEq c.content_type v
   | _, _ => true)
  && (match f.pinned, boundVal f ListPh.PhPinned with
      | some _, some v => intColEq c.pinned v
      | _, _ => true)

/-- The `INNER JOIN tags t1 ON t1.clip_id = clips.id AND t1.tag = ?` rows for
one clip, when the tag placeholder is correctly bound to the tag value. -/
def t1Matches (s : Store) (tv : String) (cid : Int) : List TagRow :=
  s.tags.filter (fun r => r.clip_id == cid && r.tag == tv)

/-- `list`: the dynamically assembled query.  Without a tag filter the query is
`BASE_SELECT`-shaped; with a tag filter the FROM clause inner-joins the tag
rows satisfying `t1.tag = ?` (against whatever value that placeholder
received — see `boundVal`) and left-joins all tag rows (`t2`), and
`GROUP_CONCAT(t2.tag)` aggregates one copy of every tag per joined `t1` row.
`GROUP BY clips.id` produces one output row per surviving clip row (ids are
unique, being the table's INTEGER PRIMARY KEY), then `ORDER BY clips.id DESC
LIMIT ? OFFSET ?` runs with `effective_limit` and the raw offset (SQLite
treats a negative OFFSET as 0, as does `Int.toNat`). -/
def list (s : Store) (f : ClipFilter) : List Clip :=
  let grouped : List Clip :=
    match f.tag, boundVal f ListPh.PhTag with
    | some _, some v =>
      (sortRowsDesc (s.clips.filter (whereOkB f))).filterMap (fun c =>
        match s.tags.filter (fun r => r.clip_id == c.id && textColEq r.tag v) with
        | [] => none
        | t1 => some (row_to_clip c
            (groupConcatTags (t1.flatMap (fun _ => clipTagStrings s c.id)))))
    | _, _ =>
      (sortRowsDesc (s.clips.filter (whereOkB f))).map (fun c => selectClip s c)
  (grouped.drop f.offset.toNat).take f.effective_limit.toNat

/-- `search`: `BASE_SELECT WHERE clips.text_content LIKE '%' || ? || '%'
COLLATE NOCASE GROUP BY clips.id ORDER BY clips.id DESC LIMIT ?`.  A NULL
`text_content` never satisfies the LIKE; a negative limit means no limit in
SQLite. -/
def search (s : Store) (query : String) (limit : Int) : List Clip :=
  let pat : List Char := '%' :: (query.toList ++ ['%'])
  let rows := (sortRowsDesc (s.clips.filter (fun c =>
      match c.text_content with
      | some tc => likeMatch pat tc.toList
      | none => false))).map (fun c => selectClip s c)
  if limit < 0 then rows else rows.take limit.toNat

/-- `delete`: `DELETE FROM clips WHERE id = ?`, returning whether any row was
removed; `ON DELETE CASCADE` drops the tag rows of every deleted clip. -/
def delete (s : Store) (id : Int) : Store × Bool :=
  let removed := s.clips.filter (fun c => c.id == id)
  ({ s with
      clips := s.clips.filter (fun c => !(c.id == id))
      tags := s.tags.filter (fun r => !(removed.any (fun c => c.id == r.clip_id))) },
   !removed.isEmpty)

/-- `find_by_hash`: `BASE_SELECT WHERE clips.hash = ? GROUP BY clips.id` via
`query_row`, with `QueryReturnedNoRows` mapped to `none`. -/
def find_by_hash (s : Store) (h : String) : Option Clip :=
  (s.clips.find? (fun c => c.hash == h)).map (fun c => selectClip s c)

/-- `add_tag`: `INSERT OR IGNORE INTO tags (clip_id, tag) VALUES (?, ?)`.
`OR IGNORE` swallows a `UNIQUE(clip_id, tag)` violation, but not a foreign-key
violation: with `PRAGMA foreign_keys = ON`, inserting a tag for a nonexistent
clip fails with a `Storage` error. -/
def add_tag (s : Store) (cid : Int) (tag : String) : Store × Except CbError Unit :=
  if !(s.clips.any (fun c => c.id == cid)) then
    (s, .error (.Storage "FOREIGN KEY constraint failed"))
  else if s.tags.any (fun r => r.clip_id == cid && r.tag == tag) then
    (s, .ok ())
  else
    ({ s with
        tags := s.tags ++ [{ id := s.next_tag_id, clip_id := cid, tag := tag }]
        next_tag_id := s.next_tag_id + 1 },
     .ok ())

/-- `remove_tag`: `DELETE FROM tags WHERE clip_id = ? AND tag = ?`; deleting
nothing is a success. -/
def remove_tag (s : Store) (cid : Int) (tag : String) : Store × Except CbError Unit :=
  ({ s with tags := s.tags.filter (fun r => !(r.clip_id == cid && r.tag == tag)) }, .ok ())

/-- `set_pinned`: `UPDATE clips SET pinned = ?, updated_at = ? WHERE id = ?`
with `pinned as i32`; affecting zero rows is still a success. -/
def set_pinned (s : Store) (id : Int) (pinned : Bool) (now : Int) :
    Store × Except CbError Unit :=
  ({ s with clips := s.clips.map (fun c =>
      if c.id == id then { c with pinned := if pinned then 1 else 0, updated_at := now }
      else c) },
   .ok ())

/-- `clear_older_than`: `DELETE FROM clips WHERE updated_at < ? AND pinned = 0`,
returning the number of rows removed; the cascade drops the deleted clips'
tag rows. -/
def clear_older_than (s : Store) (before : Int) : Store × Int :=
  let removed := s.clips.filter (fun c => decide (c.updated_at < before) && c.pinned == 0)
  ({ s with
      clips := s.clips.filter (fun c => !(decide (c.updated_at < before) && c.pinned == 0))
      tags := s.tags.filter (fun r => !(removed.any (fun c => c.id == r.clip_id))) },
   (removed.length : Int))

/-- Option-valued fold for the `MIN(created_at)`/`MAX(created_at)` aggregates
(NULL over an empty table). -/
def optFold (f : Int → Int → Int) (acc : Option Int) (x : Int) : Option Int :=
  match acc with
  | none => some x
  | some m => some (f m x)

/-- `stats`: the single aggregate SELECT over `clips`. -/
def stats (s : Store) : StorageStats :=
  { total_clips := (s.clips.length : Int)
    text_clips := ((s.clips.filter (fun c => c.content_type == "text")).length : Int)
    image_clips := ((s.clips.filter (fun c => c.content_type == "image")).length : Int)
    fileref_clips := ((s.clips.filter (fun c => c.content_type == "fileref")).length : Int)
    total_size := (s.clips.map ClipRow.size_bytes).foldl (· + ·) 0
    oldest := (s.clips.map ClipRow.created_at).foldl (optFold min) none
    newest := (s.clips.map ClipRow.created_at).foldl (optFold max) none }

/-- `touch`: `UPDATE clips SET updated_at = ? WHERE id = ?`; zero affected rows
is a `NotFound` error (and the update was then a no-op). -/
def touch (s : Store) (id : Int) (now : Int) : Store × Except CbError Unit :=
  let changes := (s.clips.filter (fun c => c.id == id)).length
  let s2 : Store := { s with clips := s.clips.map (fun c =>
    if c.id == id then { c with updated_at := now } else c) }
  if changes == 0 then
    (s2, .error (.NotFound ("Clip with id " ++ toString id ++ " not found")))
  else (s2, .ok ())

/-! ### Content fingerprinter (`src/hash.rs`)

`hash_content` is `format!("{:x}", Sha256::digest(data))`: the SHA-256 of the
byte sequence, printed as lowercase hex.  The SHA-256 core (from the `sha2`
crate) is implemented here directly: bytes are `Nat`s, 32-bit words are `Nat`s
reduced mod 2^32.  All recursion is structural (explicit fuel), so the digest
evaluates inside `decide`. -/

def w32 (x : Nat) : Nat := x % 4294967296

def rotr32 (n x : Nat) : Nat := w32 ((x >>> n) ||| (x <<< (32 - n)))

def bigSigma0 (x : Nat) : Nat := (rotr32 2 x) ^^^ (rotr32 13 x) ^^^ (rotr32 22 x)

def bigSigma1 (x : Nat) : Nat := (rotr32 6 x) ^^^ (rotr32 11 x) ^^^ (rotr32 25 x)

def smallSigma0 (x : Nat) : Nat := (rotr32 7 x) ^^^ (rotr32 18 x) ^^^ (x >>> 3)

def smallSigma1 (x : Nat) : Nat := (rotr32 17 x) ^^^ (rotr32 19 x) ^^^ (x >>> 10)

/-- The 64 round constants of SHA-256 (written in decimal). -/
def shaK : List Nat :=
  [1116352408, 1899447441, 3049323471, 3921009573,
   961987163, 1508970993, 2453635748, 2870763221,
   3624381080, 310598401, 607225278, 1426881987,
   1925078388, 2162078206, 2614888103, 3248222580,
   3835390401, 4022224774, 264347078, 604807628,
   770255983, 1249150122, 1555081692, 1996064986,
   2554220882, 2821834349, 2952996808, 3210313671,
   3336571891, 3584528711, 113926993, 338241895,
   666307205, 773529912, 1294757372, 1396182291,
   1695183700, 1986661051, 2177026350, 2456956037,
   2730485921, 2820302411, 3259730800, 3345764771,
   3516065817, 3600352804, 4094571909, 275423344,
   430227734, 506948616, 659060556, 883997877,
   958139571, 1322822218, 1537002063, 1747873779,
   1955562222, 2024104815, 2227730452, 2361852424,
   2428436474, 2756734187, 3204031479, 3329325298]

/-- The initial hash state of SHA-256 (written in decimal). -/
def shaH0 : List Nat :=
  [1779033703, 3144134277, 1013904242, 2773480762,
   1359893119, 2600822924, 528734635, 1541459225]

/-- Extend a 16-word block to the 64-word message schedule. -/
def extendSchedule (acc : List Nat) : Nat → List Nat
  | 0 => acc
  | n + 1 =>
    let i := acc.length
    let w := w32 (smallSigma1 (acc.getD (i - 2) 0) + acc.getD (i - 7) 0 +
      smallSigma0 (acc.getD (i - 15) 0) + acc.getD (i - 16) 0)
    extendSchedule (acc ++ [w]) n

structure ShaState where
  a : Nat
  b : Nat
  c : Nat
  d : Nat
  e : Nat
  f : Nat
  g : Nat
  h : Nat
  deriving Repr

def shaRound (st : ShaState) (kw : Nat × Nat) : ShaState :=
  let ch := (st.e &&& st.f) ^^^ ((st.e ^^^ 0xffffffff) &&& st.g)
  let maj := (st.a &&& st.b) ^^^ (st.a &&& st.c) ^^^ (st.b &&& st.c)
  let t1 := w32 (st.h + bigSigma1 st.e + ch + kw.1 + kw.2)
  let t2 := w32 (bigSigma0 st.a + maj)
  { a := w32 (t1 + t2), b := st.a, c := st.b, d := st.c
    e := w32 (st.d + t1), f := st.e, g := st.f, h := st.g }

def compressBlock (hs : List Nat) (block : List Nat) : List Nat :=
  let sched := extendSchedule block 48
  let st0 : ShaState :=
    ⟨hs.getD 0 0, hs.getD 1 0, hs.getD 2 0, hs.getD 3 0,
     hs.getD 4 0, hs.getD 5 0, hs.getD 6 0, hs.getD 7 0⟩
  let st := (shaK.zip sched).foldl shaRound st0
  [w32 (hs.getD 0 0 + st.a), w32 (hs.getD 1 0 + st.b), w32 (hs.getD 2 0 + st.c),
   w32 (hs.getD 3 0 + st.d), w32 (hs.getD 4 0 + st.e), w32 (hs.getD 5 0 + st.f),
   w32 (hs.getD 6 0 + st.g), w32 (hs.getD 7 0 + st.h)]

/-- Group bytes into big-endian 32-bit words (fuel = list length). -/
def bytesToWords : Nat → List Nat → List Nat
  | 0, _ => []
  | _, [] => []
  | fuel + 1, bs =>
    (bs.getD 0 0 * 16777216 + bs.getD 1 0 * 65536 + bs.getD 2 0 * 256 + bs.getD 3 0)
      :: bytesToWords fuel (bs.drop 4)

/-- Group words into 16-word blocks (fuel = list length). -/
def toBlocks : Nat → List Nat → List (List Nat)
  | 0, _ => []
  | _, [] => []
  | fuel + 1, ws => ws.take 16 :: toBlocks fuel (ws.drop 16)

/-- SHA-256 padding: `0x80`, zeros to 56 mod 64, then the bit length as eight
big-endian bytes. -/
def sha256pad (msg : List Nat) : List Nat :=
  let L := msg.length
  let z := (64 + 56 - ((L + 1) % 64)) % 64
  let bitLen := 8 * L
  msg ++ 0x80 :: (List.replicate z 0 ++
    [(bitLen >>> 56) % 256, (bitLen >>> 48) % 256, (bitLen >>> 40) % 256,
     (bitLen >>> 32) % 256, (bitLen >>> 24) % 256, (bitLen >>> 16) % 256,
     (bitLen >>> 8) % 256, bitLen % 256])

/-- SHA-256 digest as 32 bytes. -/
def sha256 (msg : List Nat) : List Nat :=
  let padded := sha256pad msg
  let words := bytesToWords padded.length padded
  let blocks := toBlocks words.length words
  let hs := blocks.foldl compressBlock shaH0
  hs.flatMap (fun w => [(w >>> 24) % 256, (w >>> 16) % 256, (w >>> 8) % 256, w % 256])

def hexDigit (n : Nat) : Char :=
  if n < 10 then Char.ofNat (48 + n) else Char.ofNat (87 + n)

/-- `hash_content` of `src/hash.rs` over a byte list. -/
def hash_content (data : List Nat) : String :=
  List.asString ((sha256 data).flatMap (fun b => [hexDigit (b / 16), hexDigit (b % 16)]))

/-- UTF-8 encoding of one character (`str::as_bytes` operates on UTF-8). -/
def utf8EncodeCharNat (c : Char) : List Nat :=
  let n := c.toNat
  if n < 128 then [n]
  else if n < 2048 then [192 + n / 64, 128 + n % 64]
  else if n < 65536 then [224 + n / 4096, 128 + (n / 64) % 64, 128 + n % 64]
  else [240 + n / 262144, 128 + (n / 4096) % 64, 128 + (n / 64) % 64, 128 + n % 64]

/-- The UTF-8 bytes of a string, as `str::as_bytes` sees them. -/
def utf8Bytes (s : String) : List Nat := s.toList.flatMap utf8EncodeCharNat

set_option maxRecDepth 100000

/-- SHA-256 test vector, validating the fingerprinter model. -/
theorem sha256_hello_vector :
    hash_content (utf8Bytes "hello") =
      "2cf24dba5fb0a30e26e83b2ac5b9e29e1b161e5c1fa7425e73043362938b9824" := by
  decide

/-! ### Capture pipeline (`src/clipboard.rs`, `src/daemon.rs`)

`ClipboardContent` is the payload `read_clipboard` hands to the pipeline; its
`hash` and `size_bytes` fields are filled by `read_clipboard` itself
(`hash_content(text.as_bytes())`, `text.len()` for the text branch).  Reading
the OS clipboard and writing image side files are external collaborators: the
observed content arrives as an argument and the side-file write is modelled by
the path it produces. -/

structure ClipboardContent where
  content_type : ContentType
  text : Option String
  image_data : Option (List Nat)
  width : Option Int
  height : Option Int
  hash : String
  size_bytes : Int
  deriving DecidableEq, Repr

/-- The `ClipboardContent` built by `read_clipboard`'s text branch for
(nonempty) clipboard text `t`. -/
def textClipboardContent (t : String) : ClipboardContent :=
  { content_type := .Text
    text := some t
    image_data := none
    width := none
    height := none
    hash := hash_content (utf8Bytes t)
    size_bytes := ((utf8Bytes t).length : Int) }

def clipboard_content_to_new_clip (content : ClipboardContent)
    (image_path : Option String) : NewClip :=
  { content_type := content.content_type
    text_content := content.text
    image_path := image_path
    image_width := content.width
    image_height := content.height
    hash := content.hash
    size_bytes := content.size_bytes }

/-- The first 16 bytes of the hash string (`&content.hash[..16]`; the hash is
ASCII hex, so byte slicing is character slicing). -/
def strTake16 (h : String) : String := List.asString (h.toList.take 16)

/-- `poll_once` of `src/daemon.rs`: one tick of the capture pipeline, taking
the store, the in-memory last-seen fingerprint, and the content observed on
the clipboard this tick (`none`: nothing readable).  Returns the successor
store, the successor fingerprint state, and the tick's result. -/
def poll_once (s : Store) (images_dir : String) (last_hash : Option String)
    (content : Option ClipboardContent) (now : Int) :
    Store × Option String × Except CbError Unit :=
  match content with
  | none => (s, last_hash, .ok ())
  | some c =>
    if last_hash == some c.hash then (s, last_hash, .ok ())
    else
      match find_by_hash s c.hash with
      | some _ => (s, some c.hash, .ok ())
      | none =>
        let image_path : Option String :=
          if c.image_data.isSome then
            some (images_dir ++ "/" ++ strTake16 c.hash ++ ".png")
          else none
        match insert s (clipboard_content_to_new_clip c image_path) now with
        | (s2, .ok _) => (s2, some c.hash, .ok ())
        | (s2, .error e) => (s2, last_hash, .error e)

/-! ### Well-formedness

`wfB` collects the structural facts the schema guarantees for every database
the program can produce: clip rows in id order (INTEGER PRIMARY KEY
AUTOINCREMENT assigns increasing ids), ids below the AUTOINCREMENT cursor,
unique hashes (`hash TEXT NOT NULL UNIQUE`), unique `(clip_id, tag)` pairs
(`UNIQUE(clip_id, tag)`), and tag rows referencing existing clips
(`FOREIGN KEY ... ON DELETE CASCADE` with `PRAGMA foreign_keys = ON`). -/

def wfB (s : Store) : Bool :=
  pairwiseB (fun a b => decide (a.id < b.id)) s.clips
  && s.clips.all (fun c => decide (c.id < s.next_clip_id))
  && pairwiseB (fun a b => a.hash != b.hash) s.clips
  && pairwiseB (fun a b => !(a.clip_id == b.clip_id && a.tag == b.tag)) s.tags
  && s.tags.all (fun r => s.clips.any (fun c => c.id == r.clip_id))

/-- The stores reachable from a fresh database through the public store
operations. -/
inductive Reachable : Store → Prop where
  | empty : Reachable emptyStore
  | insert (s : Store) (c : NewClip) (now : Int) :
      Reachable s → Reachable (Cb.insert s c now).1
  | delete (s : Store) (id : Int) :
      Reachable s → Reachable (Cb.delete s id).1
  | add_tag (s : Store) (cid : Int) (t : String) :
      Reachable s → Reachable (Cb.add_tag s cid t).1
  | remove_tag (s : Store) (cid : Int) (t : String) :
      Reachable s → Reachable (Cb.remove_tag s cid t).1
  | set_pinned (s : Store) (id : Int) (b : Bool) (now : Int) :
      Reachable s → Reachable (Cb.set_pinned s id b now).1
  | clear_older_than (s : Store) (before : Int) :
      Reachable s → Reachable (Cb.clear_older_than s before).1
  | touch (s : Store) (id : Int) (now : Int) :
      Reachable s → Reachable (Cb.touch s id now).1

/-! ### Concrete instances

Small concrete databases and pipeline runs used to exercise the theorems on
explicit inputs. -/

/-- A concrete text clip row. -/
def sampleRow (id : Int) (text : String) (h : String) (pin : Int) (ts : Int) : ClipRow :=
  { id := id
    content_type := "text"
    text_content := some text
    image_path := none
    image_width := none
    image_height := none
    hash := h
    size_bytes := 1
    pinned := pin
    created_at := ts
    updated_at := ts }

def imagesDirDemo : String := "/home/user/.cb/images"

/-- Tick 1 of the dedup scenario: empty store, empty last-seen fingerprint,
clipboard shows `"hello"`. -/
def tick1 : Store × Option String × Except CbError Unit :=
  poll_once emptyStore imagesDirDemo none (some (textClipboardContent "hello")) 100

/-- Tick 2: clipboard still shows `"hello"`. -/
def tick2 : Store × Option String × Except CbError Unit :=
  poll_once tick1.1 imagesDirDemo tick1.2.1 (some (textClipboardContent "hello")) 200

/-- Tick 3: clipboard now shows `"world"`. -/
def tick3 : Store × Option String × Except CbError Unit :=
  poll_once tick2.1 imagesDirDemo tick2.2.1 (some (textClipboardContent "world")) 300

def cexStoreC1 : Store := ⟨[sampleRow 1 "hello" "h1" 0 100], [], 2, 1⟩

def witStoreC1 : Store := ⟨[sampleRow 1 "hello" "h1" 0 100], [], 2, 1⟩

def cexStoreC2 : Store := ⟨[sampleRow 1 "hello" "h1" 0 100], [⟨1, 1, "a,b"⟩], 2, 2⟩

def cexFilterC2 : ClipFilter := ⟨none, none, some "a,b", 0, 0⟩

def witStoreC2 : Store :=
  ⟨[sampleRow 1 "hello" "h1" 0 100, sampleRow 2 "bye" "h2" 0 100],
   [⟨1, 1, "work"⟩, ⟨2, 1, "other"⟩], 3, 3⟩

def witFilterC2 : ClipFilter := ⟨none, none, some "work", 0, 0⟩

def witStoreC4 : Store := ⟨[sampleRow 1 "hello" "h1" 0 100], [], 2, 1⟩

def witNewClipC4 : NewClip :=
  { content_type := .Text
    text_content := some "again"
    image_path := none
    image_width := none
    image_height := none
    hash := "h1"
    size_bytes := 5 }

def witStoreC5 : Store :=
  ⟨[sampleRow 1 "old pinned" "h1" 1 10, sampleRow 2 "old" "h2" 0 10,
    sampleRow 3 "new" "h3" 0 90], [], 4, 1⟩

def witStoreC6 : Store := ⟨[sampleRow 1 "tagged" "h1" 0 100], [⟨1, 1, "work"⟩], 2, 2⟩

def witStoreC7 : Store := ⟨[sampleRow 1 "hello" "h1" 0 100], [], 2, 1⟩

def witStoreC8 : Store :=
  ⟨[sampleRow 1 "Hello World" "h1" 0 100, sampleRow 2 "goodbye" "h2" 0 100], [], 3, 1⟩

def cexStoreC8 : Store := ⟨[sampleRow 1 "axb" "h1" 0 100], [], 2, 1⟩

/-- Failing input for the combined-filter query: clip 2 is text, pinned, and
tagged `"work"`, so the conjunctive reading of the filter below selects it. -/
def failStoreC9 : Store :=
  ⟨[sampleRow 1 "one" "h1" 0 100, sampleRow 2 "two" "h2" 1 100], [⟨1, 2, "work"⟩], 3, 2⟩

def failFilterC9 : ClipFilter := ⟨some .Text, some true, some "work", 0, 0⟩

def witStoreC10 : Store := ⟨[sampleRow 1 "hello" "h1" 0 100], [], 2, 1⟩

def cexStoreC10 : Store := ⟨[sampleRow 1 "hello" "h1" 0 100], [], 2, 1⟩

/-! ## Lemma layer -/

theorem pairwiseB_iff (p : α → α → Bool) (l : List α) :
    pairwiseB p l = true ↔ l.Pairwise (fun a b => p a b = true) := by
  induction l with
  | nil => simp [pairwiseB]
  | cons a l ih =>
    simp [pairwiseB, List.pairwise_cons, ih, List.all_eq_true, and_comm]

/-- Propositional reading of `wfB`. -/
structure WF (s : Store) : Prop where
  ids_sorted : s.clips.Pairwise (fun a b => a.id < b.id)
  ids_lt_next : ∀ c ∈ s.clips, c.id < s.next_clip_id
  hash_uniq : s.clips.Pairwise (fun a b => a.hash ≠ b.hash)
  tag_pairs : s.tags.Pairwise (fun a b => ¬(a.clip_id = b.clip_id ∧ a.tag = b.tag))
  tag_fk : ∀ r ∈ s.tags, ∃ c, c ∈ s.clips ∧ c.id = r.clip_id

theorem wfB_iff (s : Store) : wfB s = true ↔ WF s := by
  constructor
  · intro h
    simp only [wfB, Bool.and_eq_true, pairwiseB_iff, List.all_eq_true, List.any_eq_true,
      decide_eq_true_eq, bne_iff_ne, Bool.not_eq_true', Bool.and_eq_false_iff] at h
    obtain ⟨⟨⟨⟨h1, h2⟩, h3⟩, h4⟩, h5⟩ := h
    refine ⟨h1, h2, h3, ?_, ?_⟩
    · refine h4.imp (fun {a b} hab => ?_)
      rcases hab with hab | hab
      · exact fun hc => by simp [hc.1] at hab
      · exact fun hc => by simp [hc.2] at hab
    · intro r hr
      obtain ⟨c, hc, hcid⟩ := h5 r hr
      exact ⟨c, hc, by simpa using hcid⟩
  · intro h
    simp only [wfB, Bool.and_eq_true, pairwiseB_iff, List.all_eq_true, List.any_eq_true,
      decide_eq_true_eq, bne_iff_ne]
    refine ⟨⟨⟨⟨h.ids_sorted, h.ids_lt_next⟩, h.hash_uniq⟩, ?_⟩, ?_⟩
    · refine h.tag_pairs.imp (fun {a b} hab => ?_)
      simp only [Bool.not_eq_true', Bool.and_eq_false_iff]
      by_cases hc : a.clip_id = b.clip_id
      · right
        simpa using fun ht => hab ⟨hc, ht⟩
      · left
        simpa using hc
    · intro r hr
      obtain ⟨c, hc, hcid⟩ := h.tag_fk r hr
      exact ⟨c, hc, by simpa using hcid⟩

/-! Helpers about the conditional-update map used by `touch` and
`set_pinned`. -/

theorem map_update_of_not_mem {l : List ClipRow} {id : Int}
    (F : ClipRow → ClipRow) (h : ∀ c ∈ l, c.id ≠ id) :
    l.map (fun c => if c.id == id then F c else c) = l := by
  induction l with
  | nil => rfl
  | cons a l ih =>
    have ha : (a.id == id) = false := by
      simpa using h a (List.mem_cons_self a l)
    simp only [List.map_cons, ha, Bool.false_eq_true, if_false]
    rw [ih (fun c hc => h c (List.mem_cons_of_mem a hc))]

theorem find?_map_update (l : List ClipRow) (id : Int) (F : ClipRow → ClipRow)
    (hF : ∀ c, (F c).id = c.id) :
    (l.map (fun c => if c.id == id then F c else c)).find? (fun c => c.id == id) =
      (l.find? (fun c => c.id == id)).map F := by
  induction l with
  | nil => rfl
  | cons a l ih =>
    by_cases ha : a.id = id
    · simp [List.find?_cons, ha, hF]
    · have ha2 : (a.id == id) = false := by simpa using ha
      simp only [List.map_cons, ha2, Bool.false_eq_true, if_false, List.find?_cons, ih]

theorem filter_eq_nil_of_not_mem {l : List ClipRow} {id : Int}
    (h : ∀ c ∈ l, c.id ≠ id) :
    l.filter (fun c => c.id == id) = [] := by
  simp only [List.filter_eq_nil_iff]
  intro c hc
  simpa using h c hc

theorem filter_not_eq_self_of_not_mem {l : List ClipRow} {id : Int}
    (h : ∀ c ∈ l, c.id ≠ id) :
    l.filter (fun c => !(c.id == id)) = l := by
  rw [List.filter_eq_self]
  intro c hc
  simpa using h c hc

/-- Partitioning a list by a predicate preserves the total length. -/
theorem filter_length_partition (p : α → Bool) (l : List α) :
    (l.filter p).length + (l.filter (fun a => !(p a))).length = l.length := by
  induction l with
  | nil => rfl
  | cons a l ih =>
    by_cases ha : p a = true
    · simp only [List.filter_cons, ha, if_true, Bool.not_true, Bool.false_eq_true, if_false,
        List.length_cons]
      omega
    · have ha2 : p a = false := by simpa using ha
      simp only [List.filter_cons, ha2, Bool.false_eq_true, if_false, Bool.not_false, if_true,
        List.length_cons]
      omega

/-! Sorting lemmas: on a strictly ascending list, `ORDER BY id DESC` is
reversal. -/

theorem insertRowDesc_all_lt {c : ClipRow} {ds : List ClipRow}
    (h : ∀ d ∈ ds, c.id < d.id) :
    insertRowDesc c ds = ds ++ [c] := by
  induction ds with
  | nil => rfl
  | cons d ds ih =>
    have hd : ¬(d.id ≤ c.id) := by
      have := h d (List.mem_cons_self d ds)
      omega
    simp only [insertRowDesc, hd, if_false]
    rw [ih (fun e he => h e (List.mem_cons_of_mem d he))]
    rfl

theorem sortRowsDesc_of_ascending {l : List ClipRow}
    (h : l.Pairwise (fun a b => a.id < b.id)) :
    sortRowsDesc l = l.reverse := by
  induction l with
  | nil => rfl
  | cons c cs ih =>
    rw [List.pairwise_cons] at h
    have : sortRowsDesc (c :: cs) = insertRowDesc c (sortRowsDesc cs) := rfl
    rw [this, ih h.2, insertRowDesc_all_lt (fun d hd => h.1 d (by simpa using hd))]
    simp

/-! Lemmas about comma splitting and joining, governing the
`GROUP_CONCAT` / `split(',')` round trip of the tags column. -/

theorem splitCommaChars_ne_nil (l : List Char) : splitCommaChars l ≠ [] := by
  induction l with
  | nil => simp [splitCommaChars]
  | cons c cs ih =>
    by_cases hc : c = ','
    · simp [splitCommaChars, hc]
    · simp only [splitCommaChars, hc, if_false]
      cases h : splitCommaChars cs with
      | nil => simp
      | cons p ps => simp

theorem splitCommaChars_append_comma (a b : List Char) :
    splitCommaChars (a ++ ',' :: b) = splitCommaChars a ++ splitCommaChars b := by
  induction a with
  | nil => simp [splitCommaChars]
  | cons c cs ih =>
    by_cases hc : c = ','
    · simp only [List.cons_append, splitCommaChars, hc, if_true, List.append_eq, ih]
    · simp only [List.cons_append, splitCommaChars, hc, if_false, List.append_eq, ih]
      cases h : splitCommaChars cs with
      | nil => exact absurd h (splitCommaChars_ne_nil cs)
      | cons p ps => simp [h]

theorem splitCommaChars_no_comma {l : List Char} (h : ',' ∉ l) :
    splitCommaChars l = [l] := by
  induction l with
  | nil => rfl
  | cons c cs ih =>
    have hc : ¬(c = ',') := fun e => h (e ▸ List.mem_cons_self c cs)
    have hcs : ',' ∉ cs := fun e => h (List.mem_cons_of_mem c e)
    simp only [splitCommaChars, hc, if_false, ih hcs]

theorem mem_splitCommaChars_no_comma {l p : List Char}
    (hp : p ∈ splitCommaChars l) : ',' ∉ p := by
  induction l generalizing p with
  | nil =>
    simp only [splitCommaChars, List.mem_singleton] at hp
    simp [hp]
  | cons c cs ih =>
    by_cases hc : c = ','
    · simp only [splitCommaChars, hc, if_true, List.mem_cons] at hp
      rcases hp with hp | hp
      · simp [hp]
      · exact ih hp
    · simp only [splitCommaChars, hc, if_false] at hp
      cases h : splitCommaChars cs with
      | nil => exact absurd h (splitCommaChars_ne_nil cs)
      | cons p0 ps =>
        rw [h] at hp
        simp only [List.mem_cons] at hp
        rcases hp with hp | hp
        · subst hp
          intro hmem
          rcases List.mem_cons.1 hmem with he | he
          · exact hc he.symm
          · exact ih (h ▸ List.mem_cons_self p0 ps) he
        · exact ih (h ▸ List.mem_cons_of_mem p0 hp)

theorem splitCommaChars_length_ge_two {l : List Char} (h : ',' ∈ l) :
    2 ≤ (splitCommaChars l).length := by
  induction l with
  | nil => cases h
  | cons c cs ih =>
    by_cases hc : c = ','
    · simp only [splitCommaChars, hc, if_true, List.length_cons]
      have := List.length_pos.2 (splitCommaChars_ne_nil cs)
      omega
    · have hmem : ',' ∈ cs := by
        rcases List.mem_cons.1 h with he | he
        · exact absurd he.symm hc
        · exact he
      simp only [splitCommaChars, hc, if_false]
      cases hs : splitCommaChars cs with
      | nil => exact absurd hs (splitCommaChars_ne_nil cs)
      | cons p ps =>
        have := ih hmem
        rw [hs] at this
        simpa using this

theorem joinCommaChars_cons_cons (t1 t2 : List Char) (ts : List (List Char)) :
    joinCommaChars (t1 :: t2 :: ts) = t1 ++ ',' :: joinCommaChars (t2 :: ts) := by
  rfl

theorem joinCommaChars_ne_nil_of_two (t1 t2 : List Char) (ts : List (List Char)) :
    joinCommaChars (t1 :: t2 :: ts) ≠ [] := by
  rw [joinCommaChars_cons_cons]
  simp

theorem split_joinCommaChars (ts : List (List Char)) (h : ts ≠ []) :
    splitCommaChars (joinCommaChars ts) = ts.flatMap splitCommaChars := by
  induction ts with
  | nil => exact absurd rfl h
  | cons t ts ih =>
    cases ts with
    | nil => simp [joinCommaChars]
    | cons t2 ts2 =>
      rw [joinCommaChars_cons_cons, splitCommaChars_append_comma, ih (by simp)]
      simp

theorem toList_eq_nil_iff (s : String) : s.toList = [] ↔ s = "" := by
  constructor
  · intro h
    rw [← String.asString_toList s, h]
    rfl
  · intro h
    simp [h]

theorem joinTags_ne_nil {ts : List String} {t : String}
    (htm : t ∈ ts) (hne : t ≠ "") :
    joinCommaChars (ts.map String.toList) ≠ [] := by
  cases ts with
  | nil => cases htm
  | cons u us =>
    cases us with
    | nil =>
      have ht : t = u := by simpa using htm
      subst ht
      intro h
      exact hne ((toList_eq_nil_iff t).1 h)
    | cons u2 us2 =>
      simpa using joinCommaChars_ne_nil_of_two u.toList u2.toList (us2.map String.toList)

/-- A nonempty comma-free tag survives the `GROUP_CONCAT`-then-split round
trip, whatever the other tags of the group are. -/
theorem decode_group_mem {ts : List String} {t : String}
    (htm : t ∈ ts) (hne : t ≠ "") (hnc : ',' ∉ t.toList) :
    t ∈ decodeTagsCol (groupConcatTags ts) := by
  cases ts with
  | nil => cases htm
  | cons u us =>
    have hjoin := joinTags_ne_nil htm hne
    simp only [groupConcatTags, decodeTagsCol, List.toList_asString]
    rw [if_neg (by simpa [List.isEmpty_iff] using hjoin)]
    rw [split_joinCommaChars _ (by simp)]
    have hsplit : t.toList ∈ ((u :: us).map String.toList).flatMap splitCommaChars := by
      refine List.mem_flatMap.2 ⟨t.toList, List.mem_map_of_mem String.toList htm, ?_⟩
      rw [splitCommaChars_no_comma hnc]
      exact List.mem_singleton.2 rfl
    have hmap := List.mem_map_of_mem List.asString hsplit
    rw [String.asString_toList t] at hmap
    exact hmap

/-- When every tag of the group is nonempty and comma-free, the decoded tags
column is exactly the group's tag list. -/
theorem decode_group_clean {ts : List String} (hne : ts ≠ [])
    (hclean : ∀ t ∈ ts, t ≠ "" ∧ ',' ∉ t.toList) :
    decodeTagsCol (groupConcatTags ts) = ts := by
  cases ts with
  | nil => exact absurd rfl hne
  | cons u us =>
    have hjoin := joinTags_ne_nil (List.mem_cons_self u us)
      (hclean u (List.mem_cons_self u us)).1
    simp only [groupConcatTags, decodeTagsCol, List.toList_asString]
    rw [if_neg (by simpa [List.isEmpty_iff] using hjoin)]
    rw [split_joinCommaChars _ (by simp)]
    have hflat : ((u :: us).map String.toList).flatMap splitCommaChars =
        (u :: us).map String.toList := by
      rw [List.flatMap_map]
      have : ∀ ts2 : List String, (∀ t ∈ ts2, t ≠ "" ∧ ',' ∉ t.toList) →
          ts2.flatMap (fun t => splitCommaChars t.toList) = ts2.map String.toList := by
        intro ts2
        induction ts2 with
        | nil => intro _; rfl
        | cons v vs ih =>
          intro hcl
          rw [List.flatMap_cons, splitCommaChars_no_comma (hcl v (List.mem_cons_self v vs)).2,
            ih (fun x hx => hcl x (List.mem_cons_of_mem v hx))]
          rfl
      exact this (u :: us) hclean
    rw [hflat, List.map_map]
    have : (List.asString ∘ String.toList) = id := by
      funext s
      show s.toList.asString = s
      exact String.asString_toList s
    rw [this, List.map_id]

/-! Preservation of well-formedness by every store operation; together these
show that every reachable database satisfies `WF`. -/

theorem WF_empty : WF emptyStore := by
  refine ⟨?_, ?_, ?_, ?_, ?_⟩ <;> simp [emptyStore]

theorem WF_insert (s : Store) (c : NewClip) (now : Int) (h : WF s) :
    WF (insert s c now).1 := by
  by_cases hdup : (s.clips.any (fun c0 => c0.hash == c.hash)) = true
  · simpa only [insert, hdup, if_true] using h
  · have hfresh : ∀ c0 ∈ s.clips, c0.hash ≠ c.hash := by
      intro c0 hc0
      simp only [List.any_eq_true, not_exists, not_and] at hdup
      simpa using hdup c0 hc0
    simp only [insert, hdup, Bool.false_eq_true, if_false]
    refine ⟨?_, ?_, ?_, h.tag_pairs, ?_⟩
    · rw [List.pairwise_append]
      refine ⟨h.ids_sorted, List.pairwise_singleton _ _, ?_⟩
      intro a ha b hb
      have hb2 : b.id = s.next_clip_id := by
        rcases List.mem_singleton.1 hb with rfl
        rfl
      rw [hb2]
      exact h.ids_lt_next a ha
    · intro c0 hc0
      show c0.id < s.next_clip_id + 1
      rcases List.mem_append.1 hc0 with hold | hnew
      · have := h.ids_lt_next c0 hold
        omega
      · rcases List.mem_singleton.1 hnew with rfl
        show s.next_clip_id < s.next_clip_id + 1
        omega
    · rw [List.pairwise_append]
      refine ⟨h.hash_uniq, List.pairwise_singleton _ _, ?_⟩
      intro a ha b hb
      rcases List.mem_singleton.1 hb with rfl
      exact hfresh a ha
    · intro r hr
      obtain ⟨c0, hc0, hcid⟩ := h.tag_fk r hr
      exact ⟨c0, List.mem_append_left _ hc0, hcid⟩

theorem WF_delete (s : Store) (id : Int) (h : WF s) : WF (delete s id).1 := by
  refine ⟨h.ids_sorted.filter _, ?_, h.hash_uniq.filter _, h.tag_pairs.filter _, ?_⟩
  · intro c0 hc0
    exact h.ids_lt_next c0 (List.mem_of_mem_filter hc0)
  · intro r hr
    have hr2 := List.mem_filter.1 hr
    obtain ⟨c0, hc0, hcid⟩ := h.tag_fk r hr2.1
    refine ⟨c0, List.mem_filter.2 ⟨hc0, ?_⟩, hcid⟩
    by_contra hne
    simp only [Bool.not_eq_true, Bool.not_eq_false] at hne
    have hc0id : c0.id = id := by simpa using hne
    have hany : (s.clips.filter (fun c2 => c2.id == id)).any
        (fun c2 => c2.id == r.clip_id) = true := by
      refine List.any_eq_true.2 ⟨c0, List.mem_filter.2 ⟨hc0, by simpa using hc0id⟩, ?_⟩
      simpa using hcid
    have := hr2.2
    simp only [hany, Bool.not_true] at this
    exact absurd this (by simp)

theorem WF_add_tag (s : Store) (cid : Int) (t : String) (h : WF s) :
    WF (add_tag s cid t).1 := by
  by_cases hex : (s.clips.any (fun c => c.id == cid)) = true
  · by_cases hpair : (s.tags.any (fun r => r.clip_id == cid && r.tag == t)) = true
    · simpa only [add_tag, hex, Bool.not_true, Bool.false_eq_true, if_false, hpair,
        if_true] using h
    · simp only [add_tag, hex, Bool.not_true, Bool.false_eq_true, if_false, hpair, if_true]
      refine ⟨h.ids_sorted, h.ids_lt_next, h.hash_uniq, ?_, ?_⟩
      · rw [List.pairwise_append]
        refine ⟨h.tag_pairs, List.pairwise_singleton _ _, ?_⟩
        intro a ha b hb hcon
        rcases List.mem_singleton.1 hb with rfl
        simp only [List.any_eq_true, not_exists, not_and] at hpair
        have := hpair a ha
        simp only [Bool.and_eq_true, beq_iff_eq] at this
        exact this ⟨hcon.1, hcon.2⟩
      · intro r hr
        rcases List.mem_append.1 hr with hold | hnew
        · exact h.tag_fk r hold
        · rcases List.mem_singleton.1 hnew with rfl
          obtain ⟨c0, hc0, hcid⟩ := List.any_eq_true.1 hex
          exact ⟨c0, hc0, by simpa using hcid⟩
  · simpa only [add_tag, hex, Bool.not_false, if_true] using h

theorem WF_remove_tag (s : Store) (cid : Int) (t : String) (h : WF s) :
    WF (remove_tag s cid t).1 := by
  refine ⟨h.ids_sorted, h.ids_lt_next, h.hash_uniq, h.tag_pairs.filter _, ?_⟩
  intro r hr
  exact h.tag_fk r (List.mem_of_mem_filter hr)

theorem WF_map_update (s : Store) (id : Int) (F : ClipRow → ClipRow)
    (hid : ∀ c, (F c).id = c.id) (hhash : ∀ c, (F c).hash = c.hash) (h : WF s) :
    WF { s with clips := s.clips.map (fun c => if c.id == id then F c else c) } := by
  have hgid : ∀ c : ClipRow, (if c.id == id then F c else c).id = c.id := by
    intro c
    by_cases hc : (c.id == id) = true <;> simp [hc, hid]
  have hghash : ∀ c : ClipRow, (if c.id == id then F c else c).hash = c.hash := by
    intro c
    by_cases hc : (c.id == id) = true <;> simp [hc, hhash]
  refine ⟨?_, ?_, ?_, h.tag_pairs, ?_⟩
  · rw [List.pairwise_map]
    exact h.ids_sorted.imp (fun {a b} hab => by rw [hgid, hgid]; exact hab)
  · intro c0 hc0
    obtain ⟨c1, hc1, rfl⟩ := List.mem_map.1 hc0
    rw [hgid]
    exact h.ids_lt_next c1 hc1
  · rw [List.pairwise_map]
    exact h.hash_uniq.imp (fun {a b} hab => by rw [hghash, hghash]; exact hab)
  · intro r hr
    obtain ⟨c0, hc0, hcid⟩ := h.tag_fk r hr
    exact ⟨_, List.mem_map_of_mem _ hc0, by rw [hgid]; exact hcid⟩

theorem WF_set_pinned (s : Store) (id : Int) (b : Bool) (now : Int) (h : WF s) :
    WF (set_pinned s id b now).1 :=
  WF_map_update s id _ (fun _ => rfl) (fun _ => rfl) h

theorem WF_touch (s : Store) (id : Int) (now : Int) (h : WF s) :
    WF (touch s id now).1 := by
  have := WF_map_update s id (fun c => { c with updated_at := now })
    (fun _ => rfl) (fun _ => rfl) h
  by_cases hch : ((s.clips.filter (fun c => c.id == id)).length == 0) = true
  · simpa only [touch, hch, if_true] using this
  · simpa only [touch, hch, Bool.false_eq_true, if_false] using this

theorem WF_clear_older_than (s : Store) (before : Int) (h : WF s) :
    WF (clear_older_than s before).1 := by
  refine ⟨h.ids_sorted.filter _, ?_, h.hash_uniq.filter _, h.tag_pairs.filter _, ?_⟩
  · intro c0 hc0
    exact h.ids_lt_next c0 (List.mem_of_mem_filter hc0)
  · intro r hr
    have hr2 := List.mem_filter.1 hr
    obtain ⟨c0, hc0, hcid⟩ := h.tag_fk r hr2.1
    refine ⟨c0, List.mem_filter.2 ⟨hc0, ?_⟩, hcid⟩
    by_contra hne
    simp only [Bool.not_eq_true, Bool.not_eq_false] at hne
    have hany : (s.clips.filter
        (fun c => decide (c.updated_at < before) && c.pinned == 0)).any
        (fun c2 => c2.id == r.clip_id) = true := by
      refine List.any_eq_true.2 ⟨c0, List.mem_filter.2 ⟨hc0, by simpa using hne⟩, ?_⟩
      simpa using hcid
    have := hr2.2
    simp only [hany, Bool.not_true] at this
    exact absurd this (by simp)

theorem reachable_wf {s : Store} (h : Reachable s) : WF s := by
  induction h with
  | empty => exact WF_empty
  | insert s c now _ ih => exact WF_insert s c now ih
  | delete s id _ ih => exact WF_delete s id ih
  | add_tag s cid t _ ih => exact WF_add_tag s cid t ih
  | remove_tag s cid t _ ih => exact WF_remove_tag s cid t ih
  | set_pinned s id b now _ ih => exact WF_set_pinned s id b now ih
  | clear_older_than s before _ ih => exact WF_clear_older_than s before ih
  | touch s id now _ ih => exact WF_touch s id now ih

theorem reachable_wfB {s : Store} (h : Reachable s) : wfB s = true :=
  (wfB_iff s).2 (reachable_wf h)



/-! Characterization of `list` in the two regions where the positional
parameter binding is correct: no tag filter at all, or a tag filter with no
other filter.  (With a tag filter plus a content-type or pinned filter the
bound values are permuted — settled separately as a code bug.) -/

/-- With only a tag filter, the single placeholder receives the tag value and
the WHERE placeholders receive nothing. -/
theorem boundVal_tag_only {f : ClipFilter} {tv : String}
    (hct : f.content_type = none) (hpin : f.pinned = none)
    (hft : f.tag = some tv) :
    boundVal f ListPh.PhTag = some (SqlVal.TextV tv) ∧
    boundVal f ListPh.PhContentType = none ∧
    boundVal f ListPh.PhPinned = none := by
  refine ⟨?_, ?_, ?_⟩ <;>
    · simp only [boundVal, listPlaceholders, listParams, hct, hpin, hft]
      rfl

/-- Without content-type and pinned filters, the WHERE clause is empty. -/
theorem whereOkB_none {f : ClipFilter} (hct : f.content_type = none)
    (hpin : f.pinned = none) : whereOkB f = fun _ => true := by
  funext c
  simp [whereOkB, hct, hpin]

theorem t1Matches_any (s : Store) (tv : String) (cid : Int) :
    (!(t1Matches s tv cid).isEmpty) =
      s.tags.any (fun r => r.clip_id == cid && r.tag == tv) := by
  simp only [t1Matches]
  generalize s.tags = l
  induction l with
  | nil => rfl
  | cons r rs ih =>
    by_cases hr : (r.clip_id == cid && r.tag == tv) = true
    · simp [List.filter_cons, hr]
    · have hr2 : (r.clip_id == cid && r.tag == tv) = false := by simpa using hr
      simp [List.filter_cons, hr2, ih]

theorem filterMap_tag_branch (l : List ClipRow) (g : ClipRow → List TagRow)
    (F : ClipRow → List TagRow → Clip) :
    (l.filterMap (fun c => match g c with | [] => none | t1 => some (F c t1))) =
      (l.filter (fun c => !(g c).isEmpty)).map (fun c => F c (g c)) := by
  induction l with
  | nil => rfl
  | cons a l ih =>
    cases hg : g a with
    | nil => simp [List.filterMap_cons, List.filter_cons, hg, ih]
    | cons r rs => simp [List.filterMap_cons, List.filter_cons, hg, ih]

theorem row_to_clip_id (c : ClipRow) (col : Option String) :
    (row_to_clip c col).id = c.id := rfl

/-- With only a tag filter, `list` reduces to the correctly-bound tag-join
query over all clips. -/
theorem list_tag_only_shape (s : Store) (f : ClipFilter) (tv : String)
    (hct : f.content_type = none) (hpin : f.pinned = none)
    (hft : f.tag = some tv) :
    list s f =
      ((((sortRowsDesc s.clips).filterMap (fun c =>
        match t1Matches s tv c.id with
        | [] => none
        | t1 => some (row_to_clip c
            (groupConcatTags (t1.flatMap (fun _ => clipTagStrings s c.id)))))).drop
        f.offset.toNat).take f.effective_limit.toNat) := by
  obtain ⟨hbt, _, _⟩ := boundVal_tag_only hct hpin hft
  simp only [list, hft, hbt, whereOkB_none hct hpin, List.filter_true]
  rfl

/-- Tag-only characterization of `list`: the id-descending enumeration of the
clips carrying the tag, windowed by offset/effective limit. -/
theorem list_map_id_tag_only (s : Store) (f : ClipFilter) (tv : String)
    (hwf : WF s) (hct : f.content_type = none) (hpin : f.pinned = none)
    (hft : f.tag = some tv) :
    (list s f).map Clip.id =
      ((((s.clips.filter (fun c =>
        s.tags.any (fun r => r.clip_id == c.id && r.tag == tv))).reverse.map
        ClipRow.id).drop f.offset.toNat).take f.effective_limit.toNat) := by
  rw [list_tag_only_shape s f tv hct hpin hft,
    sortRowsDesc_of_ascending hwf.ids_sorted, filterMap_tag_branch,
    List.filter_reverse]
  have hm : s.clips.filter (fun c => !(t1Matches s tv c.id).isEmpty) =
      s.clips.filter (fun c =>
        s.tags.any (fun r => r.clip_id == c.id && r.tag == tv)) := by
    apply List.filter_congr
    intro c _
    exact t1Matches_any s tv c.id
  rw [hm, List.map_take, List.map_drop, List.map_map]
  rfl

/-! LIKE-pattern lemmas: for a wildcard-free needle `q`, matching
`'%' ++ q ++ '%'` is exactly ASCII-case-insensitive substring containment. -/

/-- `q` contains neither `%` nor `_`, the two LIKE wildcards. -/
def noWildB (q : String) : Bool :=
  q.toList.all (fun c => !(c == '%') && !(c == '_'))

/-- ASCII-case-insensitive substring containment: the folded needle occurs
inside the folded haystack. -/
def containsCI (q t : String) : Bool :=
  (t.toList.map foldChar).tails.any
    (fun suf => (q.toList.map foldChar).isPrefixOf suf)

theorem likeMatch_plain_iff {q : List Char}
    (hq : ∀ c ∈ q, c ≠ '%' ∧ c ≠ '_') (t : List Char) :
    likeMatch (q ++ ['%']) t = true ↔ (q.map foldChar) <+: (t.map foldChar) := by
  induction q generalizing t with
  | nil =>
    constructor
    · intro _
      exact List.nil_prefix
    · intro _
      have hunfold : likeMatch ([] ++ ['%']) t =
          t.tails.any (fun suf => likeMatch [] suf) := by
        simp [likeMatch]
      rw [hunfold, List.any_eq_true]
      exact ⟨[], (List.mem_tails _ _).2 List.nil_suffix, rfl⟩
  | cons c q ih =>
    have hc := hq c (List.mem_cons_self c q)
    cases t with
    | nil =>
      simp [likeMatch, hc.1, hc.2]
    | cons d t =>
      simp only [List.cons_append, likeMatch, hc.1, hc.2, if_false, List.map_cons,
        List.cons_prefix_cons, Bool.and_eq_true, beq_iff_eq, List.append_eq]
      rw [ih (fun x hx => hq x (List.mem_cons_of_mem c hx))]

theorem likeMatch_infix {q : List Char}
    (hq : ∀ c ∈ q, c ≠ '%' ∧ c ≠ '_') (t : List Char) :
    likeMatch ('%' :: (q ++ ['%'])) t = true ↔
      (q.map foldChar) <:+: (t.map foldChar) := by
  have hunfold : likeMatch ('%' :: (q ++ ['%'])) t =
      t.tails.any (fun suf => likeMatch (q ++ ['%']) suf) := by
    simp [likeMatch]
  rw [hunfold, List.any_eq_true]
  constructor
  · rintro ⟨suf, hsuf, hm⟩
    have h1 : q.map foldChar <+: suf.map foldChar := (likeMatch_plain_iff hq suf).1 hm
    have h2 : suf <:+ t := (List.mem_tails _ _).1 hsuf
    exact List.infix_iff_prefix_suffix.2 ⟨suf.map foldChar, h1, h2.map foldChar⟩
  · intro hinf
    obtain ⟨tmid, hpre, hsuf⟩ := List.infix_iff_prefix_suffix.1 hinf
    obtain ⟨pre, hpre2⟩ := hsuf
    obtain ⟨l1, l2, rfl, hm1, hm2⟩ := List.map_eq_append_iff.1 hpre2.symm
    refine ⟨l2, (List.mem_tails _ _).2 ⟨l1, rfl⟩, ?_⟩
    rw [likeMatch_plain_iff hq, hm2]
    exact hpre

theorem containsCI_iff (q t : String) :
    containsCI q t = true ↔ (q.toList.map foldChar) <:+: (t.toList.map foldChar) := by
  simp only [containsCI, List.any_eq_true, List.isPrefixOf_iff_prefix]
  constructor
  · rintro ⟨suf, hsuf, hp⟩
    exact List.infix_iff_prefix_suffix.2 ⟨suf, hp, (List.mem_tails _ _).1 hsuf⟩
  · intro h
    obtain ⟨mid, hpre, hsuf⟩ := List.infix_iff_prefix_suffix.1 h
    exact ⟨mid, (List.mem_tails _ _).2 hsuf, hpre⟩

theorem likeMatch_eq_containsCI {q : String} (hq : noWildB q = true) (tc : String) :
    likeMatch ('%' :: (q.toList ++ ['%'])) tc.toList = containsCI q tc := by
  have hq2 : ∀ c ∈ q.toList, c ≠ '%' ∧ c ≠ '_' := by
    intro c hc
    have := List.all_eq_true.1 hq c hc
    simpa using this
  rw [Bool.eq_iff_iff, likeMatch_infix hq2, containsCI_iff]

/-- Characterization of `search` for a wildcard-free needle and a nonnegative
limit: the id-descending enumeration of the clips whose text contains the
needle case-insensitively, capped at the limit. -/
theorem search_map_id (s : Store) (q : String) (n : Int) (hwf : WF s)
    (hq : noWildB q = true) (hn : 0 ≤ n) :
    (search s q n).map Clip.id =
      (((s.clips.filter (fun c =>
          match c.text_content with
          | some tc => containsCI q tc
          | none => false)).reverse.map ClipRow.id).take n.toNat) := by
  have hm : s.clips.filter (fun c =>
      match c.text_content with
      | some tc => likeMatch ('%' :: (q.toList ++ ['%'])) tc.toList
      | none => false) = s.clips.filter (fun c =>
      match c.text_content with
      | some tc => containsCI q tc
      | none => false) := by
    apply List.filter_congr
    intro c _
    cases htc : c.text_content with
    | none => rfl
    | some tc => exact likeMatch_eq_containsCI hq tc
  have hsorted : (s.clips.filter (fun c =>
      match c.text_content with
      | some tc => likeMatch ('%' :: (q.toList ++ ['%'])) tc.toList
      | none => false)).Pairwise (fun a b => a.id < b.id) :=
    hwf.ids_sorted.filter _
  simp only [search]
  rw [if_neg (by omega : ¬n < 0), sortRowsDesc_of_ascending hsorted, hm,
    List.map_take, List.map_map]
  rfl

/-! Shape lemmas for the mutating operations. -/

theorem touch_fst (s : Store) (id now : Int) :
    (touch s id now).1 = { s with clips := s.clips.map (fun c =>
      if c.id == id then { c with updated_at := now } else c) } := by
  simp only [touch]
  split <;> rfl

theorem touch_snd_ok (s : Store) (id now : Int)
    (h : ∃ c ∈ s.clips, c.id = id) : (touch s id now).2 = .ok () := by
  obtain ⟨c0, hc0, hid⟩ := h
  have hne : s.clips.filter (fun c => c.id == id) ≠ [] := by
    intro he
    have : c0 ∈ s.clips.filter (fun c => c.id == id) :=
      List.mem_filter.2 ⟨hc0, by simpa using hid⟩
    rw [he] at this
    cases this
  have hpos : 0 < (s.clips.filter (fun c => c.id == id)).length :=
    List.length_pos.2 hne
  have hlen : ((s.clips.filter (fun c => c.id == id)).length == 0) = false := by
    simp only [beq_eq_false_iff_ne]
    omega
  simp only [touch, hlen, Bool.false_eq_true, if_false]

theorem add_tag_fst_clips (s : Store) (cid : Int) (t : String) :
    (add_tag s cid t).1.clips = s.clips := by
  simp only [add_tag]
  split
  · rfl
  · split <;> rfl

theorem add_tag_fst_tags (s : Store) (cid : Int) (t : String)
    (hex : (s.clips.any (fun c => c.id == cid)) = true) :
    t ∈ clipTagStrings (add_tag s cid t).1 cid := by
  by_cases hpair : (s.tags.any (fun r => r.clip_id == cid && r.tag == t)) = true
  · simp only [add_tag, hex, Bool.not_true, Bool.false_eq_true, if_false, hpair, if_true]
    obtain ⟨r, hr, hpr⟩ := List.any_eq_true.1 hpair
    simp only [Bool.and_eq_true, beq_iff_eq] at hpr
    refine List.mem_map.2 ⟨r, List.mem_filter.2 ⟨hr, by simpa using hpr.1⟩, hpr.2⟩
  · simp only [add_tag, hex, Bool.not_true, Bool.false_eq_true, if_false, hpair, if_true]
    refine List.mem_map.2 ⟨{ id := s.next_tag_id, clip_id := cid, tag := t }, ?_, rfl⟩
    refine List.mem_filter.2 ⟨List.mem_append_right _ (List.mem_singleton.2 rfl), by simp⟩

/-- Every tag string produced by the tags-column decoding is comma-free. -/
theorem decode_no_comma {col : Option String} {u : String}
    (hu : u ∈ decodeTagsCol col) : ',' ∉ u.toList := by
  cases col with
  | none => cases hu
  | some s =>
    simp only [decodeTagsCol] at hu
    by_cases hs : s.toList.isEmpty = true
    · rw [if_pos hs] at hu
      cases hu
    · rw [if_neg hs] at hu
      obtain ⟨p, hp, hpu⟩ := List.mem_map.1 hu
      have := mem_splitCommaChars_no_comma hp
      rw [← hpu, List.toList_asString]
      exact this

/-- Under the `UNIQUE(clip_id, tag)` constraint, the inner tag join matches at
most one row per clip; a nonempty match is a singleton. -/
theorem t1Matches_eq_singleton (s : Store) (tv : String) (cid : Int) (hwf : WF s)
    (hne : t1Matches s tv cid ≠ []) :
    ∃ x, t1Matches s tv cid = [x] ∧ x.clip_id = cid ∧ x.tag = tv := by
  cases hx : t1Matches s tv cid with
  | nil => exact absurd hx hne
  | cons x xs =>
    have hxmem : x ∈ t1Matches s tv cid := hx ▸ List.mem_cons_self x xs
    have hxp := (List.mem_filter.1 hxmem).2
    simp only [Bool.and_eq_true, beq_iff_eq] at hxp
    cases xs with
    | nil => exact ⟨x, rfl, hxp.1, hxp.2⟩
    | cons y ys =>
      have hpair := hwf.tag_pairs.filter (fun r => r.clip_id == cid && r.tag == tv)
      have hx2 : s.tags.filter (fun r => r.clip_id == cid && r.tag == tv) =
          x :: y :: ys := hx
      rw [hx2] at hpair
      have hR := (List.pairwise_cons.1 hpair).1 y (List.mem_cons_self y ys)
      have hymem : y ∈ t1Matches s tv cid := hx ▸ List.mem_cons_of_mem x
        (List.mem_cons_self y ys)
      have hyp := (List.mem_filter.1 hymem).2
      simp only [Bool.and_eq_true, beq_iff_eq] at hyp
      exact absurd ⟨hxp.1.trans hyp.1.symm, hxp.2.trans hyp.2.symm⟩ hR

/-- Every element of a tag-only-filtered `list` result is the SELECT
projection of a stored clip row whose tag join is nonempty. -/
theorem mem_list_tag (s : Store) (f : ClipFilter) (tv : String) (hwf : WF s)
    (hct : f.content_type = none) (hpin : f.pinned = none)
    (hft : f.tag = some tv) {cl : Clip} (hcl : cl ∈ list s f) :
    ∃ c, c ∈ s.clips ∧ t1Matches s tv c.id ≠ [] ∧
      cl = row_to_clip c (groupConcatTags ((t1Matches s tv c.id).flatMap
        (fun _ => clipTagStrings s c.id))) := by
  rw [list_tag_only_shape s f tv hct hpin hft,
    sortRowsDesc_of_ascending hwf.ids_sorted, filterMap_tag_branch] at hcl
  have h1 := List.mem_of_mem_take hcl
  have h2 := List.mem_of_mem_drop h1
  obtain ⟨c, hc, rfl⟩ := List.mem_map.1 h2
  have hc2 := List.mem_filter.1 hc
  have hc3 := List.mem_reverse.1 hc2.1
  refine ⟨c, hc3, ?_, rfl⟩
  intro he
  have := hc2.2
  rw [he] at this
  simp at this

/-- C4: inserting a `NewClip` whose hash already belongs to some stored clip
fails with a `Storage` error (not `NotFound`, not success), leaves the store
unchanged, and hash uniqueness is an invariant of every operation sequence. -/
theorem claim_C4 :
    (∀ (s : Store) (nc : NewClip) (now : Int) (c0 : ClipRow),
      c0 ∈ s.clips → c0.hash = nc.hash →
      (insert s nc now).1 = s ∧
      ∃ m, (insert s nc now).2 = Except.error (CbError.Storage m)) ∧
    (∀ s : Store, Reachable s → s.clips.Pairwise (fun a b => a.hash ≠ b.hash)) := by
  constructor
  · intro s nc now c0 hc0 hh
    have hany : (s.clips.any (fun c => c.hash == nc.hash)) = true :=
      List.any_eq_true.2 ⟨c0, hc0, by simpa using hh⟩
    exact ⟨by simp [insert, hany],
      ⟨"UNIQUE constraint failed: clips.hash", by simp [insert, hany]⟩⟩
  · intro s h
    exact (reachable_wf h).hash_uniq

theorem claim_C4_witness :
    ((insert witStoreC4 witNewClipC4 7).1 = witStoreC4 ∧
      ∃ m, (insert witStoreC4 witNewClipC4 7).2 = Except.error (CbError.Storage m)) ∧
    emptyStore.clips.Pairwise (fun a b => a.hash ≠ b.hash) :=
  ⟨claim_C4.1 witStoreC4 witNewClipC4 7 (sampleRow 1 "hello" "h1" 0 100) (by decide) rfl,
   claim_C4.2 emptyStore Reachable.empty⟩

/-- C5: retention pruning removes exactly the rows that are unpinned and
strictly older than the cutoff, returns the number of removed rows, and never
touches a pinned row. -/
theorem claim_C5 (s : Store) (cutoff : Int) :
    (∀ c, c ∈ (clear_older_than s cutoff).1.clips ↔
      (c ∈ s.clips ∧ ¬(c.updated_at < cutoff ∧ c.pinned = 0))) ∧
    ((clear_older_than s cutoff).2 +
      ((clear_older_than s cutoff).1.clips.length : Int) = (s.clips.length : Int)) ∧
    (∀ c ∈ s.clips, c.pinned ≠ 0 → c ∈ (clear_older_than s cutoff).1.clips) := by
  have hpred : ∀ c : ClipRow,
      ((decide (c.updated_at < cutoff) && c.pinned == 0) = false) ↔
        ¬(c.updated_at < cutoff ∧ c.pinned = 0) := by
    intro c
    rw [Bool.and_eq_false_iff]
    constructor
    · rintro (h | h) hcon
      · rw [decide_eq_false_iff_not] at h
        exact h hcon.1
      · rw [beq_eq_false_iff_ne] at h
        exact h hcon.2
    · intro h
      by_cases h1 : c.updated_at < cutoff
      · right
        rw [beq_eq_false_iff_ne]
        exact fun h2 => h ⟨h1, h2⟩
      · left
        rw [decide_eq_false_iff_not]
        exact h1
  have hmem : ∀ c, c ∈ (clear_older_than s cutoff).1.clips ↔
      (c ∈ s.clips ∧ ¬(c.updated_at < cutoff ∧ c.pinned = 0)) := by
    intro c
    simp only [clear_older_than, List.mem_filter, Bool.not_eq_true']
    rw [hpred c]
  refine ⟨hmem, ?_, ?_⟩
  · have hpart := filter_length_partition
      (fun c => decide (c.updated_at < cutoff) && c.pinned == 0) s.clips
    simp only [clear_older_than]
    omega
  · intro c hc hpin
    exact (hmem c).2 ⟨hc, fun hcon => hpin hcon.2⟩

theorem claim_C5_witness :
    (sampleRow 1 "old pinned" "h1" 1 10 ∈ (clear_older_than witStoreC5 50).1.clips) ∧
    ((clear_older_than witStoreC5 50).2 +
      ((clear_older_than witStoreC5 50).1.clips.length : Int) =
      (witStoreC5.clips.length : Int)) :=
  ⟨(claim_C5 witStoreC5 50).2.2 (sampleRow 1 "old pinned" "h1" 1 10) (by decide) (by decide),
   (claim_C5 witStoreC5 50).2.1⟩

/-- C6: `delete` returns whether a row existed (a miss is a `false`, never an
error), and afterwards no tag association references the deleted id; deleting
a missing id leaves the store unchanged. -/
theorem claim_C6 (s : Store) (id : Int) (hwf : wfB s = true) :
    ((delete s id).2 = true ↔ ∃ c ∈ s.clips, c.id = id) ∧
    (∀ r ∈ (delete s id).1.tags, r.clip_id ≠ id) ∧
    ((¬∃ c ∈ s.clips, c.id = id) → (delete s id).1 = s) := by
  have hwf2 := (wfB_iff s).1 hwf
  refine ⟨?_, ?_, ?_⟩
  · cases hf : s.clips.filter (fun c => c.id == id) with
    | nil =>
      simp only [delete, hf, List.isEmpty_nil, Bool.not_true, Bool.false_eq_true, false_iff]
      rintro ⟨c, hc, hcid⟩
      have : c ∈ s.clips.filter (fun c => c.id == id) :=
        List.mem_filter.2 ⟨hc, by simpa using hcid⟩
      rw [hf] at this
      cases this
    | cons r rs =>
      simp only [delete, hf, List.isEmpty_cons, Bool.not_false, true_iff]
      have hr : r ∈ s.clips.filter (fun c => c.id == id) := by
        rw [hf]
        exact List.mem_cons_self r rs
      have := List.mem_filter.1 hr
      exact ⟨r, this.1, by simpa using this.2⟩
  · intro r hr hid
    simp only [delete] at hr
    have hr2 := List.mem_filter.1 hr
    obtain ⟨c0, hc0, hcid⟩ := hwf2.tag_fk r hr2.1
    have hc0r : c0 ∈ s.clips.filter (fun c => c.id == id) :=
      List.mem_filter.2 ⟨hc0, by simp [hcid, hid]⟩
    have hany : (s.clips.filter (fun c => c.id == id)).any
        (fun c => c.id == r.clip_id) = true :=
      List.any_eq_true.2 ⟨c0, hc0r, by simp [hcid]⟩
    have hkept := hr2.2
    rw [hany] at hkept
    simp at hkept
  · intro hnone
    have hno : ∀ c ∈ s.clips, c.id ≠ id := by
      intro c hc he
      exact hnone ⟨c, hc, he⟩
    have h1 : s.clips.filter (fun c => !(c.id == id)) = s.clips :=
      filter_not_eq_self_of_not_mem hno
    have h2 : s.clips.filter (fun c => c.id == id) = [] := filter_eq_nil_of_not_mem hno
    simp only [delete, h1, h2, List.any_nil, Bool.not_false, List.filter_true]

theorem claim_C6_witness :
    ((delete witStoreC6 1).2 = true ↔ ∃ c ∈ witStoreC6.clips, c.id = 1) ∧
    (∀ r ∈ (delete witStoreC6 1).1.tags, r.clip_id ≠ 1) ∧
    ((¬∃ c ∈ witStoreC6.clips, c.id = 1) → (delete witStoreC6 1).1 = witStoreC6) :=
  claim_C6 witStoreC6 1 (by decide)

/-- C7: `touch` on a missing id is a `NotFound` error and leaves the store
unchanged, while `set_pinned` on the same missing id succeeds affecting zero
rows; `touch` on an existing id succeeds and sets that clip's `updated_at` to
now. -/
theorem claim_C7 (s : Store) (id now : Int) (b : Bool) :
    ((∀ c ∈ s.clips, c.id ≠ id) →
      (touch s id now).1 = s ∧
      (∃ m, (touch s id now).2 = Except.error (CbError.NotFound m)) ∧
      (set_pinned s id b now).1 = s ∧
      (set_pinned s id b now).2 = Except.ok ()) ∧
    (∀ c0 ∈ s.clips, c0.id = id →
      (touch s id now).2 = Except.ok () ∧
      ∃ cl, get_by_id (touch s id now).1 id = Except.ok cl ∧ cl.updated_at = now) := by
  constructor
  · intro h
    have hmap := map_update_of_not_mem (fun c => { c with updated_at := now }) h
    have hmap2 := map_update_of_not_mem
      (fun c => { c with pinned := if b then 1 else 0, updated_at := now }) h
    have hflt := filter_eq_nil_of_not_mem h
    refine ⟨?_, ?_, ?_, rfl⟩
    · rw [touch_fst, hmap]
    · refine ⟨"Clip with id " ++ toString id ++ " not found", ?_⟩
      simp only [touch, hflt, List.length_nil]
      rfl
    · simp only [set_pinned, hmap2]
  · intro c0 hc0 hid
    refine ⟨touch_snd_ok s id now ⟨c0, hc0, hid⟩, ?_⟩
    have hsome : (s.clips.find? (fun c => c.id == id)).isSome :=
      List.find?_isSome.2 ⟨c0, hc0, by simpa using hid⟩
    obtain ⟨c1, hc1⟩ := Option.isSome_iff_exists.1 hsome
    have hfind := find?_map_update s.clips id (fun c => { c with updated_at := now })
      (fun _ => rfl)
    refine ⟨selectClip { s with clips := s.clips.map (fun c =>
        if c.id == id then { c with updated_at := now } else c) }
      { c1 with updated_at := now }, ?_, rfl⟩
    rw [touch_fst]
    simp only [get_by_id, hfind, hc1, Option.map_some']

theorem claim_C7_witness :
    ((touch witStoreC7 999 55).1 = witStoreC7 ∧
      (∃ m, (touch witStoreC7 999 55).2 = Except.error (CbError.NotFound m)) ∧
      (set_pinned witStoreC7 999 true 55).1 = witStoreC7 ∧
      (set_pinned witStoreC7 999 true 55).2 = Except.ok ()) ∧
    ((touch witStoreC7 1 55).2 = Except.ok () ∧
      ∃ cl, get_by_id (touch witStoreC7 1 55).1 1 = Except.ok cl ∧ cl.updated_at = 55) :=
  ⟨(claim_C7 witStoreC7 999 55 true).1 (by decide),
   (claim_C7 witStoreC7 1 55 true).2 (sampleRow 1 "hello" "h1" 0 100) (by decide) rfl⟩

/-- C1 (amended): `touch` and `set_pinned` set the clip's `updated_at` to now,
while `add_tag` and `remove_tag` leave every clip row, and in particular its
`updated_at`, unchanged.  Read operations (`get_by_id`, `list`, `search`,
`find_by_hash`, `stats`) are plain SELECTs, embedded as pure functions of the
store, so they change nothing by construction. -/
theorem claim_C1 (s : Store) (id now : Int) (c0 : ClipRow)
    (hfind : s.clips.find? (fun c => c.id == id) = some c0) :
    (∃ cl2, get_by_id (touch s id now).1 id = Except.ok cl2 ∧ cl2.updated_at = now) ∧
    (∀ b, ∃ cl2, get_by_id (set_pinned s id b now).1 id = Except.ok cl2 ∧
      cl2.updated_at = now) ∧
    (∀ t, ∃ cl2, get_by_id (add_tag s id t).1 id = Except.ok cl2 ∧
      cl2.updated_at = c0.updated_at) ∧
    (∀ t, ∃ cl2, get_by_id (remove_tag s id t).1 id = Except.ok cl2 ∧
      cl2.updated_at = c0.updated_at) := by
  refine ⟨?_, ?_, ?_, ?_⟩
  · have hf := find?_map_update s.clips id (fun c => { c with updated_at := now })
      (fun _ => rfl)
    refine ⟨selectClip { s with clips := s.clips.map (fun c =>
        if c.id == id then { c with updated_at := now } else c) }
      { c0 with updated_at := now }, ?_, rfl⟩
    rw [touch_fst]
    simp only [get_by_id, hf, hfind, Option.map_some']
  · intro b
    have hf := find?_map_update s.clips id
      (fun c => { c with pinned := if b then 1 else 0, updated_at := now })
      (fun _ => rfl)
    refine ⟨selectClip (set_pinned s id b now).1
      { c0 with pinned := if b then 1 else 0, updated_at := now }, ?_, rfl⟩
    simp only [set_pinned, get_by_id, hf, hfind, Option.map_some']
  · intro t
    have hclips := add_tag_fst_clips s id t
    refine ⟨selectClip (add_tag s id t).1 c0, ?_, rfl⟩
    simp only [get_by_id, hclips, hfind]
  · intro t
    have hclips : (remove_tag s id t).1.clips = s.clips := rfl
    refine ⟨selectClip (remove_tag s id t).1 c0, ?_, rfl⟩
    simp only [get_by_id, hclips, hfind]

theorem claim_C1_witness :
    (∃ cl2, get_by_id (touch witStoreC1 1 200).1 1 = Except.ok cl2 ∧
      cl2.updated_at = 200) ∧
    (∀ b, ∃ cl2, get_by_id (set_pinned witStoreC1 1 b 200).1 1 = Except.ok cl2 ∧
      cl2.updated_at = 200) ∧
    (∀ t, ∃ cl2, get_by_id (add_tag witStoreC1 1 t).1 1 = Except.ok cl2 ∧
      cl2.updated_at = (sampleRow 1 "hello" "h1" 0 100).updated_at) ∧
    (∀ t, ∃ cl2, get_by_id (remove_tag witStoreC1 1 t).1 1 = Except.ok cl2 ∧
      cl2.updated_at = (sampleRow 1 "hello" "h1" 0 100).updated_at) :=
  claim_C1 witStoreC1 1 200 (sampleRow 1 "hello" "h1" 0 100) (by decide)

/-- C1 counterexample: the claim as stated says `updated_at` advances when a
tag is added; on the code, `add_tag` runs `INSERT OR IGNORE INTO tags ...` and
never touches the `clips` row, so the clip created at time 100 still reports
`updated_at = 100` after a tag is added (and after it is removed again). -/
theorem claim_C1_counterexample :
    ((get_by_id cexStoreC1 1).toOption.map Clip.updated_at = some 100) ∧
    ((get_by_id (add_tag cexStoreC1 1 "x").1 1).toOption.map Clip.updated_at =
      some 100) ∧
    ((get_by_id (add_tag cexStoreC1 1 "x").1 1).toOption.map Clip.tags =
      some ["x"]) ∧
    ((get_by_id (remove_tag cexStoreC1 1 "x").1 1).toOption.map Clip.updated_at =
      some 100) := by
  decide

/-- C9 (code bug): the spec's conjunctive filter composition — demanded
explicitly by its filter-composition test — fails on the code whenever the
tag filter is combined with another filter.  The source pushes the parameter
values in the order content-type, pinned, tag, while the `?` placeholders
occur in the SQL text in the order tag (inside the INNER JOIN's ON clause),
content-type, pinned; rusqlite binds positionally, so the values are
permuted.  At the failing input below, clip 2 is text, pinned, and tagged
`"work"` — the conjunctive reading selects it — yet the tag placeholder is
bound to the content-type's value `"text"` and the pinned placeholder to the
tag value `"work"`, and the query returns no rows at all.  (The
`effective_limit` normalization and the id-descending order the claim also
mentions are fine; the conjunctive-binding part is the bug.) -/
theorem claim_C9 :
    (∃ c ∈ failStoreC9.clips, c.content_type = "text" ∧ c.pinned = 1 ∧
      (failStoreC9.tags.any (fun r => r.clip_id == c.id && r.tag == "work")) = true) ∧
    boundVal failFilterC9 ListPh.PhTag = some (SqlVal.TextV "text") ∧
    boundVal failFilterC9 ListPh.PhContentType = some (SqlVal.IntV 1) ∧
    boundVal failFilterC9 ListPh.PhPinned = some (SqlVal.TextV "work") ∧
    list failStoreC9 failFilterC9 = [] := by
  decide

/-- C2 (amended): when every stored tag is nonempty and comma-free, a
tag-filtered `list` whose window covers all matches returns exactly the clips
carrying the tag, in descending id order without duplicates, and each returned
clip's `tags` field carries all of that clip's tags.  (With a tag containing a
comma, the returned `tags` field is the comma-split of the aggregate and no
longer contains the stored tag itself — see the counterexample.) -/
theorem claim_C2 (s : Store) (tv : String) (f : ClipFilter) (hwf : wfB s = true)
    (hclean : ∀ r ∈ s.tags, r.tag ≠ "" ∧ ',' ∉ r.tag.toList)
    (hct : f.content_type = none) (hpin : f.pinned = none) (hft : f.tag = some tv)
    (hoff : f.offset = 0)
    (hfit : (s.clips.filter (fun c =>
      s.tags.any (fun r => r.clip_id == c.id && r.tag == tv))).length ≤
      f.effective_limit.toNat) :
    ((list s f).map Clip.id =
      (s.clips.filter (fun c =>
        s.tags.any (fun r => r.clip_id == c.id && r.tag == tv))).reverse.map
        ClipRow.id) ∧
    ((list s f).map Clip.id).Nodup ∧
    (∀ cl ∈ list s f, cl.tags = clipTagStrings s cl.id ∧ tv ∈ cl.tags) := by
  have hwf2 := (wfB_iff s).1 hwf
  have hchar := list_map_id_tag_only s f tv hwf2 hct hpin hft
  rw [hoff] at hchar
  have hlen : ((s.clips.filter (fun c =>
      s.tags.any (fun r => r.clip_id == c.id && r.tag == tv))).reverse.map
      ClipRow.id).length ≤ f.effective_limit.toNat := by
    simpa using hfit
  rw [show ((0 : Int)).toNat = 0 from rfl, List.drop_zero,
    List.take_of_length_le hlen] at hchar
  have hnodup : ((list s f).map Clip.id).Nodup := by
    rw [hchar, List.map_reverse, List.nodup_reverse]
    exact (hwf2.ids_sorted.filter _).map ClipRow.id
      (fun a b hab => Int.ne_of_lt hab)
  refine ⟨hchar, hnodup, ?_⟩
  intro cl hcl
  obtain ⟨c, hcmem, hne, rfl⟩ := mem_list_tag s f tv hwf2 hct hpin hft hcl
  obtain ⟨x, hx, hxcid, hxtag⟩ := t1Matches_eq_singleton s tv c.id hwf2 hne
  have hflat : (t1Matches s tv c.id).flatMap (fun _ => clipTagStrings s c.id) =
      clipTagStrings s c.id := by
    rw [hx]
    simp
  have hxmem : x ∈ t1Matches s tv c.id := hx ▸ List.mem_cons_self x []
  have hxtags : x ∈ s.tags := List.mem_of_mem_filter hxmem
  have hmemtv : x.tag ∈ clipTagStrings s c.id := by
    refine List.mem_map.2 ⟨x, List.mem_filter.2 ⟨hxtags, by simpa using hxcid⟩, rfl⟩
  have htagsne : clipTagStrings s c.id ≠ [] := List.ne_nil_of_mem hmemtv
  have hcleanc : ∀ t ∈ clipTagStrings s c.id, t ≠ "" ∧ ',' ∉ t.toList := by
    intro t ht
    obtain ⟨r, hr, rfl⟩ := List.mem_map.1 ht
    exact hclean r (List.mem_of_mem_filter hr)
  constructor
  · show decodeTagsCol (groupConcatTags ((t1Matches s tv c.id).flatMap
      (fun _ => clipTagStrings s c.id))) = clipTagStrings s c.id
    rw [hflat]
    exact decode_group_clean htagsne hcleanc
  · show tv ∈ decodeTagsCol (groupConcatTags ((t1Matches s tv c.id).flatMap
      (fun _ => clipTagStrings s c.id)))
    rw [hflat]
    have hcleantv := hcleanc x.tag hmemtv
    rw [hxtag] at hmemtv hcleantv
    exact decode_group_mem hmemtv hcleantv.1 hcleantv.2

theorem claim_C2_witness :
    ((list witStoreC2 witFilterC2).map Clip.id =
      (witStoreC2.clips.filter (fun c =>
        witStoreC2.tags.any (fun r => r.clip_id == c.id && r.tag == "work"))).reverse.map
        ClipRow.id) ∧
    ((list witStoreC2 witFilterC2).map Clip.id).Nodup ∧
    (∀ cl ∈ list witStoreC2 witFilterC2,
      cl.tags = clipTagStrings witStoreC2 cl.id ∧ "work" ∈ cl.tags) :=
  claim_C2 witStoreC2 "work" witFilterC2 (by decide) (by decide) rfl rfl rfl rfl
    (by decide)

/-- C2 counterexample: the clip's only stored tag is `"a,b"`; filtering by that
very tag value returns the clip, but its decoded `tags` field is `["a", "b"]`,
which does not contain the stored tag `"a,b"` — the claim's "tags field
contains all of that clip's tags" fails as stated. -/
theorem claim_C2_counterexample :
    (cexStoreC2.tags.map TagRow.tag = ["a,b"]) ∧
    ((list cexStoreC2 cexFilterC2).map Clip.tags = [["a", "b"]]) ∧
    ((list cexStoreC2 cexFilterC2).all
      (fun cl => !(cl.tags.contains "a,b"))) = true := by
  decide

/-- C8 (amended): for a needle free of the LIKE wildcards `%`/`_` and a
nonnegative limit, `search` returns exactly the clips whose text contains the
needle as an ASCII-case-insensitive substring, in descending id order capped
at the limit, and never returns a clip without text content.  (A needle
containing a wildcard matches more than substring containment — see the
counterexample; a negative limit disables the cap in SQLite.) -/
theorem claim_C8 (s : Store) (q : String) (n : Int) (hwf : wfB s = true)
    (hq : noWildB q = true) (hn : 0 ≤ n) :
    ((search s q n).map Clip.id =
      (((s.clips.filter (fun c =>
        match c.text_content with
        | some tc => containsCI q tc
        | none => false)).reverse.map ClipRow.id).take n.toNat)) ∧
    (∀ cl ∈ search s q n, cl.text_content.isSome = true) := by
  have hwf2 := (wfB_iff s).1 hwf
  refine ⟨search_map_id s q n hwf2 hq hn, ?_⟩
  intro cl hcl
  have hsorted : (s.clips.filter (fun c =>
      match c.text_content with
      | some tc => likeMatch ('%' :: (q.toList ++ ['%'])) tc.toList
      | none => false)).Pairwise (fun a b => a.id < b.id) :=
    hwf2.ids_sorted.filter _
  simp only [search] at hcl
  rw [if_neg (by omega : ¬n < 0), sortRowsDesc_of_ascending hsorted] at hcl
  have h1 := List.mem_of_mem_take hcl
  obtain ⟨c, hc, rfl⟩ := List.mem_map.1 h1
  have hc2 := (List.mem_filter.1 (List.mem_reverse.1 hc)).2
  show c.text_content.isSome = true
  cases htc : c.text_content with
  | none =>
    rw [htc] at hc2
    simp at hc2
  | some tc => rfl

theorem claim_C8_witness :
    ((search witStoreC8 "hello" 50).map Clip.id =
      (((witStoreC8.clips.filter (fun c =>
        match c.text_content with
        | some tc => containsCI "hello" tc
        | none => false)).reverse.map ClipRow.id).take (50 : Int).toNat)) ∧
    (∀ cl ∈ search witStoreC8 "hello" 50, cl.text_content.isSome = true) :=
  claim_C8 witStoreC8 "hello" 50 (by decide) (by decide) (by decide)

/-- C8 counterexample: with the needle `"a%b"`, the query pattern becomes
`%a%b%`, so a clip whose text is `"axb"` is returned even though `"axb"` does
not contain `"a%b"` as a (case-insensitive) substring — the claim's "exactly
the clips whose text_content contains q" fails as stated. -/
theorem claim_C8_counterexample :
    ((search cexStoreC8 "a%b" 50).map Clip.id = [1]) ∧
    containsCI "a%b" "axb" = false := by
  decide

/-- C10 (amended): for a nonempty comma-free tag, `add_tag` then `get_by_id`
round-trips the tag; any tag returned by the read path is comma-free, so a
stored tag containing a comma is never returned as itself, and on a clip with
no other tags it comes back as its comma-separated pieces (at least two of
them).  (The empty tag is also lost by the round trip — see the
counterexample.) -/
theorem claim_C10 (s : Store) (id : Int)
    (hex : (s.clips.any (fun c => c.id == id)) = true) :
    (∀ t, t ≠ "" → ',' ∉ t.toList →
      ∃ cl, get_by_id (add_tag s id t).1 id = Except.ok cl ∧ t ∈ cl.tags) ∧
    (∀ t cl, ',' ∈ t.toList →
      get_by_id (add_tag s id t).1 id = Except.ok cl → t ∉ cl.tags) ∧
    (∀ t, ',' ∈ t.toList → clipTagStrings s id = [] →
      ∃ cl, get_by_id (add_tag s id t).1 id = Except.ok cl ∧
        cl.tags = (splitCommaChars t.toList).map List.asString ∧
        2 ≤ cl.tags.length) := by
  obtain ⟨c0, hc0, hc0p⟩ := List.any_eq_true.1 hex
  have hsome : (s.clips.find? (fun c => c.id == id)).isSome :=
    List.find?_isSome.2 ⟨c0, hc0, hc0p⟩
  obtain ⟨c1, hc1⟩ := Option.isSome_iff_exists.1 hsome
  have hc1id : c1.id = id := by simpa using List.find?_some hc1
  have hget : ∀ t : String, get_by_id (add_tag s id t).1 id =
      Except.ok (selectClip (add_tag s id t).1 c1) := by
    intro t
    simp only [get_by_id, add_tag_fst_clips, hc1]
  refine ⟨?_, ?_, ?_⟩
  · intro t hne hnc
    refine ⟨selectClip (add_tag s id t).1 c1, hget t, ?_⟩
    show t ∈ decodeTagsCol (groupConcatTags (clipTagStrings (add_tag s id t).1 c1.id))
    rw [hc1id]
    exact decode_group_mem (add_tag_fst_tags s id t hex) hne hnc
  · intro t cl hcomma hcl
    rw [hget t] at hcl
    injection hcl with hcl2
    subst hcl2
    intro hmem
    exact decode_no_comma hmem hcomma
  · intro t hcomma hempty
    have htne : t ≠ "" := by
      intro he
      rw [he] at hcomma
      simp at hcomma
    simp only [clipTagStrings] at hempty
    have hfilter : s.tags.filter (fun r => r.clip_id == id) = [] :=
      List.map_eq_nil_iff.1 hempty
    have hpair : (s.tags.any (fun r => r.clip_id == id && r.tag == t)) = false := by
      by_contra hb
      rw [Bool.not_eq_false] at hb
      obtain ⟨r, hr, hrp⟩ := List.any_eq_true.1 hb
      simp only [Bool.and_eq_true] at hrp
      have : r ∈ s.tags.filter (fun r => r.clip_id == id) :=
        List.mem_filter.2 ⟨hr, hrp.1⟩
      rw [hfilter] at this
      cases this
    have htags : (add_tag s id t).1.tags =
        s.tags ++ [{ id := s.next_tag_id, clip_id := id, tag := t }] := by
      simp only [add_tag, hex, Bool.not_true, Bool.false_eq_true, if_false, hpair]
    have hcts : clipTagStrings (add_tag s id t).1 id = [t] := by
      simp only [clipTagStrings, htags, List.filter_append]
      rw [hfilter]
      simp
    have htlne : t.toList ≠ [] := fun h => htne ((toList_eq_nil_iff t).1 h)
    have hteq : (selectClip (add_tag s id t).1 c1).tags =
        (splitCommaChars t.toList).map List.asString := by
      show decodeTagsCol (groupConcatTags (clipTagStrings (add_tag s id t).1 c1.id)) = _
      rw [hc1id, hcts]
      simp only [groupConcatTags, decodeTagsCol, List.toList_asString]
      rw [if_neg (by simpa [List.isEmpty_iff] using htlne)]
      rfl
    refine ⟨selectClip (add_tag s id t).1 c1, hget t, hteq, ?_⟩
    rw [hteq, List.length_map]
    exact splitCommaChars_length_ge_two hcomma

theorem claim_C10_witness :
    (∃ cl, get_by_id (add_tag witStoreC10 1 "work").1 1 = Except.ok cl ∧
      "work" ∈ cl.tags) ∧
    (∃ cl, get_by_id (add_tag witStoreC10 1 "a,b").1 1 = Except.ok cl ∧
      cl.tags = (splitCommaChars ("a,b" : String).toList).map List.asString ∧
      2 ≤ cl.tags.length) :=
  ⟨(claim_C10 witStoreC10 1 (by decide)).1 "work" (by decide) (by decide),
   (claim_C10 witStoreC10 1 (by decide)).2.2 "a,b" (by decide) (by decide)⟩

/-- C10 counterexample: the empty string is a comma-free tag, yet after
`add_tag(1, "")` the read path reports no tags at all (the aggregate is the
empty string, which `row_to_clip` maps to an empty tag list), so the returned
tags do not contain the added tag. -/
theorem claim_C10_counterexample :
    (',' ∉ ("" : String).toList) ∧
    ((get_by_id (add_tag cexStoreC10 1 "").1 1).toOption.map Clip.tags =
      some []) ∧
    ¬(("" : String) ∈ ([] : List String)) := by
  refine ⟨by decide, by decide, by decide⟩

/-- C3: the dedup pipeline scenario — tick 1 on `"hello"` inserts exactly one
clip of size 5 carrying `fingerprint("hello")`; tick 2 on `"hello"` again
changes nothing; tick 3 on `"world"` inserts a second clip.  In general, a
tick whose fingerprint is already stored leaves the store untouched and only
updates the in-memory last-seen fingerprint. -/
theorem claim_C3 :
    (tick1.1.clips.map ClipRow.size_bytes = [5] ∧
     tick1.1.clips.map ClipRow.hash = [hash_content (utf8Bytes "hello")] ∧
     tick1.2.2.toOption = some () ∧
     tick2.1 = tick1.1 ∧
     tick2.1.clips.length = 1 ∧
     tick2.2.2.toOption = some () ∧
     tick3.1.clips.length = 2 ∧
     tick3.2.2.toOption = some ()) ∧
    (∀ (s : Store) (dir : String) (last : Option String) (c : ClipboardContent)
      (now : Int), (find_by_hash s c.hash).isSome = true →
      poll_once s dir last (some c) now = (s, some c.hash, Except.ok ())) := by
  constructor
  · decide
  · intro s dir last c now hf
    by_cases hl : (last == some c.hash) = true
    · have hlast : last = some c.hash := by simpa using hl
      subst hlast
      simp [poll_once]
    · simp only [poll_once, hl, Bool.false_eq_true, if_false]
      cases hfb : find_by_hash s c.hash with
      | none =>
        rw [hfb] at hf
        cases hf
      | some cl => rfl

theorem claim_C3_witness :
    poll_once tick1.1 imagesDirDemo none
      (some (textClipboardContent "hello")) 500 =
      (tick1.1, some (textClipboardContent "hello").hash, Except.ok ()) :=
  claim_C3.2 tick1.1 imagesDirDemo none (textClipboardContent "hello") 500 (by decide)

end Cb
